import Mathlib

/-! Verification of the ldb tdb backend (ldb_tdb.c) and the ldb schema registry (ldb_attributes.c)

A shallow embedding of the two source files:

* `src/ldb/ldb_tdb/ldb_tdb.c` — the tdb storage backend: `ltdb_store`, `ltdb_modified`,
  `ltdb_add_internal`, `ltdb_delete_internal`, `ltdb_modify_internal`, `ltdb_rename`,
  `ltdb_sequence_number` and their message helpers (`msg_add_element`,
  `msg_delete_attribute`, `msg_delete_element`, `find_element`).
* `src/ldb/common/ldb_attributes.c` — the sorted schema-attribute registry:
  `ldb_schema_attribute_by_name` (binary search with wildcard fallback) and
  `ldb_schema_attribute_remove`.

Modelling conventions:

* The tdb key/value store is an association list `TdbStore` from key strings to
  stored messages; `tdb_store`/`tdb_delete`/`tdb_fetch` are modelled with their
  flag-dependent success/failure behaviour (`TDB_INSERT` fails on an existing key,
  `TDB_MODIFY` fails on a missing key).  The record codec (`ltdb_pack_data` /
  `ltdb_unpack_data`) is the identity on messages: the spec requires
  `unpack (pack e) = e` and no claim concerns the byte-level codec.
* Attribute values are modelled as `Nat` tokens; per-attribute syntax comparison
  functions are supplied by an environment (`LtdbEnv.cmpOf`), standing for
  `ldb_schema_attribute_by_name(ldb, name)->syntax->comparison_fn` whose handler
  implementations (ldb_handlers.c) are not part of the sources.
* Functions of this repository that the sources call but that are not under `src/`
  (the index manager ldb_index.c, the cache ldb_cache.c, ldb_dn.c, ldb_msg.c) are
  modelled from the spec; each such definition carries a `Modelled from the spec:`
  doc comment.  The index-manager operations are kept abstract in the environment
  because the claims quantify over their success and failure.
* Out-of-memory failures (talloc returning NULL) are not modelled.
-/

/-! Error codes (numeric values from the public ldb header, not under src/) -/

def LDB_SUCCESS : Int := 0
def LDB_ERR_OPERATIONS_ERROR : Int := 1
def LDB_ERR_PROTOCOL_ERROR : Int := 2
def LDB_ERR_TIME_LIMIT_EXCEEDED : Int := 3
def LDB_ERR_UNSUPPORTED_CRITICAL_EXTENSION : Int := 12
def LDB_ERR_NO_SUCH_ATTRIBUTE : Int := 16
def LDB_ERR_ATTRIBUTE_OR_VALUE_EXISTS : Int := 20
def LDB_ERR_INVALID_ATTRIBUTE_SYNTAX : Int := 21
def LDB_ERR_NO_SUCH_OBJECT : Int := 32
def LDB_ERR_INSUFFICIENT_ACCESS_RIGHTS : Int := 50
def LDB_ERR_BUSY : Int := 51
def LDB_ERR_ENTRY_ALREADY_EXISTS : Int := 68
def LDB_ERR_OTHER : Int := 80

/-- Modify-operation flags from the ldb header (`LDB_FLAG_MOD_*`); the mask
`LDB_FLAG_MOD_MASK` is 0xf. -/
def LDB_FLAG_MOD_ADD : Nat := 1
def LDB_FLAG_MOD_REPLACE : Nat := 2
def LDB_FLAG_MOD_DELETE : Nat := 3
def LDB_FLAG_MOD_MASK : Nat := 15

/-! Special DN names (`ldb_tdb.h` constants) -/

def LTDB_BASEINFO : String := "@BASEINFO"
def LTDB_INDEXLIST : String := "@INDEXLIST"
def LTDB_ATTRIBUTES : String := "@ATTRIBUTES"
def LTDB_SEQUENCE_NUMBER : String := "sequenceNumber"
def LTDB_MOD_TIMESTAMP : String := "modifyTimestamp"

/-! Case-insensitive string comparison

`ldb_attr_cmp` is `strcasecmp` in the sources' headers (not under src/).
Modelled from the spec: "Name comparison is case-insensitive", via folding to
upper case and comparing the folded character lists lexicographically. -/

def strUpper (s : String) : String := String.mk (s.data.map Char.toUpper)

/-- Lexicographic strict order on character lists (the order underlying
`strcasecmp` after case folding). -/
def chLtb : List Char → List Char → Bool
  | [], [] => false
  | [], _ :: _ => true
  | _ :: _, [] => false
  | a :: as, b :: bs =>
    if a.toNat < b.toNat then true
    else if a.toNat = b.toNat then chLtb as bs
    else false

/-- Modelled from the spec: `ldb_attr_cmp` — case-insensitive three-way
attribute-name comparison (zero means the names are equivalent). -/
def ldb_attr_cmp (a b : String) : Int :=
  if chLtb (strUpper a).data (strUpper b).data then -1
  else if (strUpper a).data = (strUpper b).data then 0
  else 1

/-- Boolean form of "the attribute names compare equal under `ldb_attr_cmp`". -/
def attrEqb (a b : String) : Bool := strUpper a == strUpper b

theorem chLtb_asymm : ∀ x y : List Char, chLtb x y = true → chLtb y x = false := by
  intro x
  induction x with
  | nil =>
    intro y h
    cases y with
    | nil => exact Bool.noConfusion h
    | cons b bs => simp [chLtb]
  | cons a as ih =>
    intro y h
    cases y with
    | nil => exact Bool.noConfusion h
    | cons b bs =>
      simp only [chLtb] at h ⊢
      by_cases hab : a.toNat < b.toNat
      · have h1 : ¬ b.toNat < a.toNat := Nat.not_lt.mpr (Nat.le_of_lt hab)
        have h2 : ¬ b.toNat = a.toNat := fun he => absurd (he ▸ hab) (by omega)
        rw [if_neg h1, if_neg h2]
      · by_cases heq : a.toNat = b.toNat
        · rw [if_neg hab, if_pos heq] at h
          have h1 : ¬ b.toNat < a.toNat := by omega
          have h2 : b.toNat = a.toNat := heq.symm
          rw [if_neg h1, if_pos h2]
          exact ih bs h
        · rw [if_neg hab, if_neg heq] at h
          exact Bool.noConfusion h

theorem chLtb_irrefl (x : List Char) : chLtb x x = false := by
  cases h : chLtb x x with
  | false => rfl
  | true =>
    have h2 := chLtb_asymm x x h
    rw [h] at h2
    exact Bool.noConfusion h2

theorem ldb_attr_cmp_eq_zero_iff (a b : String) :
    ldb_attr_cmp a b = 0 ↔ (strUpper a).data = (strUpper b).data := by
  unfold ldb_attr_cmp
  constructor
  · intro h
    by_cases h1 : chLtb (strUpper a).data (strUpper b).data
    · rw [if_pos h1] at h; exact absurd h (by decide)
    · rw [if_neg h1] at h
      by_cases h2 : (strUpper a).data = (strUpper b).data
      · exact h2
      · rw [if_neg h2] at h; exact absurd h (by decide)
  · intro h
    rw [h, chLtb_irrefl]
    simp

theorem attrEqb_iff (a b : String) : attrEqb a b = true ↔ ldb_attr_cmp a b = 0 := by
  rw [ldb_attr_cmp_eq_zero_iff]
  unfold attrEqb
  constructor
  · intro h
    have : strUpper a = strUpper b := eq_of_beq h
    rw [this]
  · intro h
    have : strUpper a = strUpper b := by
      cases ha : strUpper a with
      | mk da => cases hb : strUpper b with
        | mk db =>
          rw [ha, hb] at h
          simp at h
          rw [h]
    simp [this]

/-! DNs

`struct ldb_dn` and its operations live in ldb_dn.c, which is not under src/.
Modelled from the spec: a DN is its linearized string; a special DN is one whose
first component begins with `@`; `ldb_dn_get_casefold` folds non-special DNs and
leaves special DNs alone; two DNs are the same entry exactly when their casefolded
forms are equal (the spec: "this equivalence is the sole definition of same DN"). -/

def ldb_dn_is_special (dn : String) : Bool := dn.data.head? == some '@'

def ldb_dn_check_special (dn name : String) : Bool := dn == name

def ldb_dn_get_casefold (dn : String) : String :=
  if ldb_dn_is_special dn then dn else strUpper dn

/-- Modelled from the spec: `ldb_dn_compare` returns zero exactly on equivalent
DNs (equal casefolded forms). -/
def ldb_dn_compare (a b : String) : Int :=
  if ldb_dn_get_casefold a = ldb_dn_get_casefold b then 0 else 1

/-! Messages -/

/-- `struct ldb_message_element`: attribute name, flag word, ordered values.
Values are `Nat` tokens (byte strings are opaque to the backend). -/
structure LdbMsgElement where
  name : String
  flags : Nat
  values : List Nat
deriving DecidableEq, Repr

/-- `struct ldb_message`: DN plus ordered elements. -/
structure LdbMessage where
  dn : String
  elements : List LdbMsgElement
deriving DecidableEq, Repr

/-! The tdb key/value store -/

inductive TdbError where
  | corrupt | oom | einval | io | lock | nolock | lock_timeout
  | exists_ | noexist | rdonly
deriving DecidableEq, Repr

/-- `ltdb_err_map` (ldb_tdb.c:52): map a tdb error code to an ldb error code. -/
def ltdb_err_map : TdbError → Int
  | .corrupt => LDB_ERR_OPERATIONS_ERROR
  | .oom => LDB_ERR_OPERATIONS_ERROR
  | .einval => LDB_ERR_OPERATIONS_ERROR
  | .io => LDB_ERR_PROTOCOL_ERROR
  | .lock => LDB_ERR_BUSY
  | .nolock => LDB_ERR_BUSY
  | .lock_timeout => LDB_ERR_TIME_LIMIT_EXCEEDED
  | .exists_ => LDB_ERR_ENTRY_ALREADY_EXISTS
  | .noexist => LDB_ERR_NO_SUCH_OBJECT
  | .rdonly => LDB_ERR_INSUFFICIENT_ACCESS_RIGHTS

inductive TdbStoreFlag where
  | replace | insert | modify
deriving DecidableEq, Repr

/-- The tdb file contents: an association list from key strings to stored
messages (the packed value bytes are represented by the message itself). -/
def TdbStore := List (String × LdbMessage)

instance : DecidableEq TdbStore := by
  unfold TdbStore
  infer_instance

def tdbLookup : TdbStore → String → Option LdbMessage
  | [], _ => none
  | p :: rest, k => if p.fst = k then some p.snd else tdbLookup rest k

/-- Insert-or-replace at a key (keeps first-occurrence position, appends new
keys at the end). -/
def tdbSet : TdbStore → String → LdbMessage → TdbStore
  | [], k, v => [(k, v)]
  | p :: rest, k, v => if p.fst = k then (k, v) :: rest else p :: tdbSet rest k v

def tdbRemove : TdbStore → String → TdbStore
  | [], _ => []
  | p :: rest, k => if p.fst = k then tdbRemove rest k else p :: tdbRemove rest k

/-- `tdb_store` semantics: `TDB_INSERT` fails with `TDB_ERR_EXISTS` on a present
key, `TDB_MODIFY` fails with `TDB_ERR_NOEXIST` on an absent key. -/
def tdb_store (db : TdbStore) (k : String) (v : LdbMessage) :
    TdbStoreFlag → Except TdbError TdbStore
  | .insert =>
    if (tdbLookup db k).isSome then .error .exists_ else .ok (tdbSet db k v)
  | .modify =>
    if (tdbLookup db k).isSome then .ok (tdbSet db k v) else .error .noexist
  | .replace => .ok (tdbSet db k v)

/-- `tdb_delete` fails with `TDB_ERR_NOEXIST` on an absent key. -/
def tdb_delete (db : TdbStore) (k : String) : Except TdbError TdbStore :=
  if (tdbLookup db k).isSome then .ok (tdbRemove db k) else .error .noexist

theorem tdbLookup_tdbSet_self (db : TdbStore) (k : String) (v : LdbMessage) :
    tdbLookup (tdbSet db k v) k = some v := by
  induction db with
  | nil => simp [tdbSet, tdbLookup]
  | cons p rest ih =>
    by_cases h : p.fst = k
    · simp [tdbSet, tdbLookup, h]
    · simp [tdbSet, tdbLookup, h, ih]

theorem tdbLookup_tdbSet_other (db : TdbStore) (k k' : String) (v : LdbMessage)
    (h : k ≠ k') : tdbLookup (tdbSet db k v) k' = tdbLookup db k' := by
  have h' : k' ≠ k := Ne.symm h
  induction db with
  | nil => simp [tdbSet, tdbLookup, h]
  | cons p rest ih =>
    by_cases hp : p.fst = k
    · simp [tdbSet, tdbLookup, hp, h, h']
    · by_cases hp' : p.fst = k'
      · simp [tdbSet, tdbLookup, hp, hp', h, h']
      · simp [tdbSet, tdbLookup, hp, hp', ih]

theorem tdbLookup_tdbRemove_self (db : TdbStore) (k : String) :
    tdbLookup (tdbRemove db k) k = none := by
  induction db with
  | nil => simp [tdbRemove, tdbLookup]
  | cons p rest ih =>
    by_cases h : p.fst = k
    · simp [tdbRemove, h, ih]
    · simp [tdbRemove, tdbLookup, h, ih]

theorem tdbLookup_tdbRemove_other (db : TdbStore) (k k' : String) (h : k ≠ k') :
    tdbLookup (tdbRemove db k) k' = tdbLookup db k' := by
  have h' : k' ≠ k := Ne.symm h
  induction db with
  | nil => simp [tdbRemove, tdbLookup]
  | cons p rest ih =>
    by_cases hp : p.fst = k
    · have hpk : p.fst ≠ k' := by rw [hp]; exact h
      simp [tdbRemove, tdbLookup, hp, hpk, h, h', ih]
    · by_cases hp' : p.fst = k'
      · simp [tdbRemove, tdbLookup, hp, hp', h, h']
      · simp [tdbRemove, tdbLookup, hp, hp', ih]

/-! Keys -/

/-- `ltdb_key` (ldb_tdb.c:120): the record key is `"DN=" ++ casefold(dn)` (the
trailing NUL of the C key is implicit in the string model). -/
def ltdb_key (dn : String) : String := "DN=" ++ ldb_dn_get_casefold dn

/-- The key of the `@BASEINFO` meta record. -/
def baseKey : String := ltdb_key LTDB_BASEINFO

/-- A primary-record key: a `"DN="` key whose DN is not special (index and meta
records live under `"DN=@..."` keys). -/
def isPrimaryKey (k : String) : Prop :=
  k.data.take 3 = "DN=".data ∧ k.data.get? 3 ≠ some '@'

instance (k : String) : Decidable (isPrimaryKey k) := by
  unfold isPrimaryKey
  infer_instance

/-! The environment

Operations called by ldb_tdb.c that live in files of this repository not under
src/.  The index-manager operations (ldb_index.c) are abstract store
transformers returning a mutated store and an ldb return code, because the
claims quantify over both their success and their failure; `cmpOf` stands for
the schema syntax comparison of an attribute; `at_val_ok` is the `@ATTRIBUTES`
value grammar check `ltdb_check_at_attributes_values`; `now` is the wall-clock
generalized time written into `modifyTimestamp`; `parseTime` is
`ldb_string_to_time`. -/
structure LtdbEnv where
  cmpOf : String → Nat → Nat → Int
  index_add : TdbStore → LdbMessage → TdbStore × Int
  index_del : TdbStore → LdbMessage → TdbStore × Int
  index_one : TdbStore → LdbMessage → Bool → TdbStore × Int
  index_del_value : TdbStore → String → LdbMsgElement → Nat → TdbStore × Int
  reindex : TdbStore → TdbStore × Int
  at_val_ok : Nat → Bool
  now : Nat
  parseTime : Nat → Nat

/-! @BASEINFO helpers -/

/-- Modelled from the spec: `ldb_msg_find_element` + the `ldb_msg_find_attr_as_*`
accessors (ldb_msg.c, not under src/): the first value of the first element whose
name compares equal case-insensitively, if any. -/
def ldb_msg_find_attr : List LdbMsgElement → String → Option Nat
  | [], _ => none
  | e :: rest, name => if attrEqb e.name name then e.values.head? else ldb_msg_find_attr rest name

/-- Set an attribute of a message to a single value (replacing the first element
of that name, or appending a new element). -/
def msgSetAttr1 (name : String) (v : Nat) : List LdbMsgElement → List LdbMsgElement
  | [] => [⟨name, 0, [v]⟩]
  | e :: rest =>
    if attrEqb e.name name then ⟨e.name, e.flags, [v]⟩ :: rest
    else e :: msgSetAttr1 name v rest

/-- The sequence number currently recorded in the store's `@BASEINFO` record
(zero when the record or the attribute is absent). -/
def seqOf (db : TdbStore) : Nat :=
  match tdbLookup db baseKey with
  | none => 0
  | some m => (ldb_msg_find_attr m.elements LTDB_SEQUENCE_NUMBER).getD 0

/-- Modelled from the spec: `ltdb_increase_sequence_number` (ldb_cache.c, not
under src/): "increment `@BASEINFO.sequenceNumber` by one and set
`modifyTimestamp` to the current generalized time". -/
def ltdb_increase_sequence_number (env : LtdbEnv) (db : TdbStore) : TdbStore × Int :=
  let msg := (tdbLookup db baseKey).getD ⟨LTDB_BASEINFO, []⟩
  let els := msgSetAttr1 LTDB_MOD_TIMESTAMP env.now
    (msgSetAttr1 LTDB_SEQUENCE_NUMBER (seqOf db + 1) msg.elements)
  (tdbSet db baseKey { msg with elements := els }, LDB_SUCCESS)

/-! The modification hook -/

/-- `ltdb_modified` (ldb_tdb.c:199): after a mutation of `dn`, reindex if `dn`
is `@INDEXLIST` or `@ATTRIBUTES`, then (unless reindexing failed or `dn` is
`@BASEINFO`) bump the sequence number. -/
def ltdb_modified (env : LtdbEnv) (db : TdbStore) (dn : String) : TdbStore × Int :=
  let step1 : TdbStore × Int :=
    if ldb_dn_is_special dn = true ∧
       (ldb_dn_check_special dn LTDB_INDEXLIST = true ∨
        ldb_dn_check_special dn LTDB_ATTRIBUTES = true)
    then env.reindex db
    else (db, LDB_SUCCESS)
  if step1.snd = LDB_SUCCESS ∧
     ¬ (ldb_dn_is_special dn = true ∧ ldb_dn_check_special dn LTDB_BASEINFO = true)
  then ltdb_increase_sequence_number env step1.fst
  else step1

/-! Storing a record -/

/-- `ltdb_store` (ldb_tdb.c:221): write the packed record under its key, then
add its index entries; if index maintenance fails, delete the just-written
record again (the `tdb_delete` result is ignored, as in the source). -/
def ltdb_store (env : LtdbEnv) (db : TdbStore) (msg : LdbMessage)
    (flgs : TdbStoreFlag) : TdbStore × Int :=
  match tdb_store db (ltdb_key msg.dn) msg flgs with
  | .error e => (db, ltdb_err_map e)
  | .ok db1 =>
    let r := env.index_add db1 msg
    if r.snd ≠ LDB_SUCCESS then (tdbRemove r.fst (ltdb_key msg.dn), r.snd)
    else (r.fst, r.snd)

/-! Point lookup -/

/-- Modelled from the spec: `ltdb_search_dn1` (ldb_search.c, not under src/) —
point lookup by DN; the caller fills the message's DN from the request since the
packed value omits it. -/
def ltdb_search_dn1 (db : TdbStore) (dn : String) : Option LdbMessage :=
  (tdbLookup db (ltdb_key dn)).map (fun m => { m with dn := dn })

/-! Special-DN validation -/

/-- `ltdb_check_special_dn` (ldb_tdb.c:170): only `@ATTRIBUTES` entries are
checked; every value must satisfy the attribute-flags grammar. -/
def ltdb_check_special_dn (env : LtdbEnv) (msg : LdbMessage) : Int :=
  if !(ldb_dn_is_special msg.dn) || !(ldb_dn_check_special msg.dn LTDB_ATTRIBUTES) then
    LDB_SUCCESS
  else if msg.elements.all (fun e => e.values.all env.at_val_ok) then LDB_SUCCESS
  else LDB_ERR_INVALID_ATTRIBUTE_SYNTAX

/-! Add -/

/-- `ltdb_add_internal` (ldb_tdb.c:258): validate special DNs, store with
`TDB_INSERT`, then maintain the one-level index and run the modification hook.
`ltdb_cache_load` only refreshes in-memory schema state and is a no-op on the
store. -/
def ltdb_add_internal (env : LtdbEnv) (db : TdbStore) (msg : LdbMessage) :
    TdbStore × Int :=
  let r0 := ltdb_check_special_dn env msg
  if r0 ≠ LDB_SUCCESS then (db, r0)
  else
    let r := ltdb_store env db msg .insert
    if r.snd = LDB_ERR_ENTRY_ALREADY_EXISTS then r
    else if r.snd = LDB_SUCCESS then
      let r1 := env.index_one r.fst msg true
      if r1.snd ≠ LDB_SUCCESS then r1
      else ltdb_modified env r1.fst msg.dn
    else r

/-! Delete -/

/-- `ltdb_delete_noindex` (ldb_tdb.c:335): delete the record under the DN's key
without touching indexes. -/
def ltdb_delete_noindex (db : TdbStore) (dn : String) : TdbStore × Int :=
  match tdb_delete db (ltdb_key dn) with
  | .ok db1 => (db1, LDB_SUCCESS)
  | .error e => (db, ltdb_err_map e)

/-- `ltdb_delete_internal` (ldb_tdb.c:357): fetch the old record (an absent
record is an error), delete it, remove its one-level and attribute index
entries, then run the modification hook. -/
def ltdb_delete_internal (env : LtdbEnv) (db : TdbStore) (dn : String) :
    TdbStore × Int :=
  match ltdb_search_dn1 db dn with
  | none => (db, LDB_ERR_NO_SUCH_OBJECT)
  | some msg =>
    let r := ltdb_delete_noindex db dn
    if r.snd ≠ LDB_SUCCESS then r
    else
      let r1 := env.index_one r.fst msg false
      if r1.snd ≠ LDB_SUCCESS then r1
      else
        let r2 := env.index_del r1.fst msg
        if r2.snd ≠ LDB_SUCCESS then r2
        else ltdb_modified env r2.fst dn

/-! Rename -/

/-- `ltdb_rename` (ldb_tdb.c:835), the operation body after handle setup: fetch
the old record, retarget its DN; equivalent DNs (case-only change) are renamed
delete-then-add, distinct DNs add-then-delete with a compensating delete of the
new record if deleting the old one fails. -/
def ltdb_rename (env : LtdbEnv) (db : TdbStore) (olddn newdn : String) :
    TdbStore × Int :=
  match ltdb_search_dn1 db olddn with
  | none => (db, LDB_ERR_NO_SUCH_OBJECT)
  | some msg0 =>
    let msg := { msg0 with dn := newdn }
    if ldb_dn_compare olddn newdn = 0 then
      let r := ltdb_delete_internal env db olddn
      if r.snd ≠ LDB_SUCCESS then r
      else ltdb_add_internal env r.fst msg
    else
      let r := ltdb_add_internal env db msg
      if r.snd ≠ LDB_SUCCESS then r
      else
        let r1 := ltdb_delete_internal env r.fst olddn
        if r1.snd ≠ LDB_SUCCESS then
          ((ltdb_delete_internal env r1.fst newdn).fst, LDB_ERR_OPERATIONS_ERROR)
        else (r1.fst, LDB_SUCCESS)

/-! Sequence-number query -/

inductive LdbSeqType where
  | highest_seq | next | highest_timestamp
deriving DecidableEq, Repr

/-- `ltdb_sequence_number` (ldb_tdb.c:986): read `@BASEINFO`; a missing record
yields success with sequence number zero; otherwise answer according to the
query type.  The result triple is (store, return code, sequence number); the
store is returned unchanged because the query writes nothing. -/
def ltdb_sequence_number (env : LtdbEnv) (db : TdbStore) (t : LdbSeqType) :
    TdbStore × Int × Nat :=
  match ltdb_search_dn1 db LTDB_BASEINFO with
  | none => (db, LDB_SUCCESS, 0)
  | some msg =>
    match t with
    | .highest_seq =>
      (db, LDB_SUCCESS, (ldb_msg_find_attr msg.elements LTDB_SEQUENCE_NUMBER).getD 0)
    | .next =>
      (db, LDB_SUCCESS, (ldb_msg_find_attr msg.elements LTDB_SEQUENCE_NUMBER).getD 0 + 1)
    | .highest_timestamp =>
      match ldb_msg_find_attr msg.elements LTDB_MOD_TIMESTAMP with
      | some d => (db, LDB_SUCCESS, env.parseTime d)
      | none => (db, LDB_SUCCESS, 0)

/-! Message helpers for modify -/

/-- Index of the first list entry satisfying `p`, counting from `i` (the
explicit linear scan used by `find_element`, `msg_delete_element` and
`ldb_msg_find_val`). -/
def findIdxFrom (p : α → Bool) : List α → Nat → Option Nat
  | [], _ => none
  | x :: xs, i => if p x then some i else findIdxFrom p xs (i + 1)

/-- `find_element` (ldb_tdb.c:450): index of the first element whose name
compares equal under `ldb_attr_cmp`, if any. -/
def find_element (msg : LdbMessage) (name : String) : Option Nat :=
  findIdxFrom (fun e => attrEqb e.name name) msg.elements 0

/-- `msg_add_element` (ldb_tdb.c:469): append a copy of the element to the
message. -/
def msg_add_element (msg : LdbMessage) (el : LdbMsgElement) : LdbMessage :=
  { msg with elements := msg.elements ++ [el] }

/-- The inner loop of `msg_delete_attribute`: call `ltdb_index_del_value` for
every value index of the element (return codes are ignored, as in the source). -/
def delElementIndexes (env : LtdbEnv) (db : TdbStore) (dn : String)
    (el : LdbMsgElement) : TdbStore :=
  (List.range el.values.length).foldl
    (fun d j => (env.index_del_value d dn el j).fst) db

/-- `msg_delete_attribute` (ldb_tdb.c:511): drop every element with the given
name, removing each of its values from the index first.  The source returns -1
only when linearizing the DN fails (out of memory), which is not modelled, so
the return code is always 0 — notably it is 0 even when no element matched. -/
def msg_delete_attribute (env : LtdbEnv) (db : TdbStore) (msg : LdbMessage)
    (name : String) : TdbStore × LdbMessage × Int :=
  let db1 := msg.elements.foldl
    (fun d e => if attrEqb e.name name then delElementIndexes env d msg.dn e else d) db
  (db1, { msg with elements := msg.elements.filter (fun e => !(attrEqb e.name name)) }, 0)

/-- `msg_delete_element` (ldb_tdb.c:552): remove the first value of the named
element that compares equal to `val` under the attribute's syntax comparison;
when the last value goes, delete the whole attribute.  Returns -1 when the
element or a matching value is missing. -/
def msg_delete_element (env : LtdbEnv) (db : TdbStore) (msg : LdbMessage)
    (name : String) (val : Nat) : TdbStore × LdbMessage × Int :=
  match find_element msg name with
  | none => (db, msg, -1)
  | some fidx =>
    match msg.elements[fidx]? with
    | none => (db, msg, -1)
    | some el =>
      match findIdxFrom (fun w => env.cmpOf el.name w val == 0) el.values 0 with
      | none => (db, msg, -1)
      | some i =>
        let newVals := el.values.eraseIdx i
        if newVals.length = 0 then
          let msg1 :=
            { msg with elements := msg.elements.set fidx { el with values := newVals } }
          msg_delete_attribute env db msg1 name
        else
          (db, { msg with elements := msg.elements.set fidx { el with values := newVals } }, 0)

/-! The modify operation -/

/-- Modelled from the spec: `ldb_msg_find_val` (ldb_msg.c, not under src/),
which locates a value of an element equal to `v`; the spec's modify semantics
compare values "per syntax compare", so equality is `cmp w v = 0` and the first
matching index is returned. -/
def ldb_msg_find_val (cmp : Nat → Nat → Int) (vals : List Nat) (v : Nat) : Option Nat :=
  findIdxFrom (fun w => cmp w v == 0) vals 0

/-- The per-value check loop of the `LDB_FLAG_MOD_ADD` branch
(ldb_tdb.c:666-677): iterate the incoming values (`v` is `elvals[j]`, and `rest`
the values after it): every incoming value must not match an existing value of
the stored element, and must be found first at its own position among the
incoming values (i.e. not be a repeat of an earlier incoming value). -/
def addCheckList (cmp : Nat → Nat → Int) (el2vals elvals : List Nat) :
    List Nat → Nat → Bool
  | [], _ => true
  | v :: rest, j =>
    (ldb_msg_find_val cmp el2vals v).isNone &&
    (ldb_msg_find_val cmp elvals v == some j) &&
    addCheckList cmp el2vals elvals rest (j + 1)

/-- The whole check loop of the ADD branch, from value index 0. -/
def addCheckOk (cmp : Nat → Nat → Int) (el2vals elvals : List Nat) : Bool :=
  addCheckList cmp el2vals elvals elvals 0

/-- The duplicate check of the `LDB_FLAG_MOD_REPLACE` branch (ldb_tdb.c:702-708):
every incoming value must be found first at its own position. -/
def replaceCheckList (cmp : Nat → Nat → Int) (elvals : List Nat) :
    List Nat → Nat → Bool
  | [], _ => true
  | v :: rest, j =>
    (ldb_msg_find_val cmp elvals v == some j) &&
    replaceCheckList cmp elvals rest (j + 1)

/-- The whole duplicate check of the REPLACE branch, from value index 0. -/
def replaceCheckOk (cmp : Nat → Nat → Int) (elvals : List Nat) : Bool :=
  replaceCheckList cmp elvals elvals 0

/-- The value loop of the `LDB_FLAG_MOD_DELETE` branch (ldb_tdb.c:737-750),
iterating the request element's values (`v` is `el.values[j]`): delete each
requested value from the working message, then remove it from the index; an
unmatched value is *no-such-attribute*. -/
def deleteVals (env : LtdbEnv) (dn : String) (el : LdbMsgElement) :
    List Nat → Nat → TdbStore → LdbMessage → TdbStore × LdbMessage × Int
  | [], _, db, msg2 => (db, msg2, LDB_SUCCESS)
  | v :: rest, j, db, msg2 =>
    let r := msg_delete_element env db msg2 el.name v
    if r.snd.snd ≠ 0 then (r.fst, r.snd.fst, LDB_ERR_NO_SUCH_ATTRIBUTE)
    else
      let r1 := env.index_del_value r.fst dn el j
      if r1.snd ≠ LDB_SUCCESS then (r1.fst, r.snd.fst, r1.snd)
      else deleteVals env dn el rest (j + 1) r1.fst r.snd.fst

/-- One iteration of the modify loop of `ltdb_modify_internal`
(ldb_tdb.c:638-760): dispatch on the element's modify flag and update the
working message `msg2` (and, for deletes, the index records in the store). -/
def modifyApplyEl (env : LtdbEnv) (db : TdbStore) (msg2 : LdbMessage)
    (el : LdbMsgElement) : TdbStore × LdbMessage × Int :=
  if el.flags &&& LDB_FLAG_MOD_MASK = LDB_FLAG_MOD_ADD then
    match find_element msg2 el.name with
    | none => (db, msg_add_element msg2 el, LDB_SUCCESS)
    | some idx =>
      match msg2.elements[idx]? with
      | none => (db, msg2, LDB_ERR_OPERATIONS_ERROR)
      | some el2 =>
        if addCheckOk (env.cmpOf el.name) el2.values el.values then
          (db,
           { msg2 with elements :=
              msg2.elements.set idx { el2 with values := el2.values ++ el.values } },
           LDB_SUCCESS)
        else (db, msg2, LDB_ERR_ATTRIBUTE_OR_VALUE_EXISTS)
  else if el.flags &&& LDB_FLAG_MOD_MASK = LDB_FLAG_MOD_REPLACE then
    let r := msg_delete_attribute env db msg2 el.name
    if replaceCheckOk (env.cmpOf el.name) el.values then
      if el.values.length ≠ 0 then (r.fst, msg_add_element r.snd.fst el, LDB_SUCCESS)
      else (r.fst, r.snd.fst, LDB_SUCCESS)
    else (r.fst, r.snd.fst, LDB_ERR_ATTRIBUTE_OR_VALUE_EXISTS)
  else if el.flags &&& LDB_FLAG_MOD_MASK = LDB_FLAG_MOD_DELETE then
    if el.values.length = 0 then
      let r := msg_delete_attribute env db msg2 el.name
      if r.snd.snd ≠ 0 then (r.fst, r.snd.fst, LDB_ERR_NO_SUCH_ATTRIBUTE)
      else (r.fst, r.snd.fst, LDB_SUCCESS)
    else deleteVals env msg2.dn el el.values 0 db msg2
  else (db, msg2, LDB_ERR_PROTOCOL_ERROR)

/-- The element loop of `ltdb_modify_internal`: apply each request element in
order, stopping at the first failure. -/
def modifyLoop (env : LtdbEnv) : TdbStore → LdbMessage → List LdbMsgElement →
    TdbStore × LdbMessage × Int
  | db, msg2, [] => (db, msg2, LDB_SUCCESS)
  | db, msg2, el :: rest =>
    let r := modifyApplyEl env db msg2 el
    if r.snd.snd = LDB_SUCCESS then modifyLoop env r.fst r.snd.fst rest
    else r

/-- `ltdb_modify_internal` (ldb_tdb.c:600): fetch the current record, apply the
request's elements in order, then store the rewritten record with `TDB_MODIFY`
and run the modification hook.  The fetched record's DN is taken from the
request (the packed value omits the DN). -/
def ltdb_modify_internal (env : LtdbEnv) (db : TdbStore) (msg : LdbMessage) :
    TdbStore × Int :=
  match tdbLookup db (ltdb_key msg.dn) with
  | none => (db, ltdb_err_map .noexist)
  | some stored =>
    let r := modifyLoop env db { stored with dn := msg.dn } msg.elements
    if r.snd.snd ≠ LDB_SUCCESS then (r.fst, r.snd.snd)
    else
      let r1 := ltdb_store env r.fst r.snd.fst .modify
      if r1.snd ≠ LDB_SUCCESS then r1
      else ltdb_modified env r1.fst msg.dn

/-! The schema registry (ldb_attributes.c)

Handler functions (ldb_handlers.c, not under src/) are modelled as tags; the
registry is the `ldb->schema.attributes` array, kept sorted case-insensitively
by name with a `"*"` wildcard entry first when present. -/

inductive LdbHandlerFn where
  | handler_copy
  | comparison_binary
  | otherFn (name : String)
deriving DecidableEq, Repr

/-- `struct ldb_schema_syntax`: the four per-attribute policy functions. -/
structure LdbSchemaStx where
  name : String
  ldif_read_fn : LdbHandlerFn
  ldif_write_fn : LdbHandlerFn
  canonicalise_fn : LdbHandlerFn
  comparison_fn : LdbHandlerFn
deriving DecidableEq, Repr

/-- The octet-string OID (the public ldb header's constant for the default
attribute syntax; header not under src/). -/
def LDB_OID_OCTET_STRING : String := "1.3.6.1.4.1.1466.115.121.1.40"

/-- `ldb_syntax_default` (ldb_attributes.c:103): octet-string with binary
comparison and copy handlers.  (Named `ldb_stx_default` here.) -/
def ldb_stx_default : LdbSchemaStx :=
  { name := LDB_OID_OCTET_STRING
    ldif_read_fn := .handler_copy
    ldif_write_fn := .handler_copy
    canonicalise_fn := .handler_copy
    comparison_fn := .comparison_binary }

/-- Schema attribute flags (public ldb header, not under src/; the exact bit
values are immaterial to the claims). -/
def LDB_ATTR_FLAG_HIDDEN : Nat := 1
def LDB_ATTR_FLAG_FIXED : Nat := 2
def LDB_ATTR_FLAG_ALLOCATED : Nat := 4

/-- `struct ldb_schema_attribute`. -/
structure LdbSchemaAttribute where
  name : String
  flags : Nat
  stx : LdbSchemaStx
deriving DecidableEq, Repr

/-- `ldb_attribute_default` (ldb_attributes.c:111): the built-in fallback entry
(the NULL name is modelled as the empty string). -/
def ldb_attribute_default : LdbSchemaAttribute :=
  { name := "", flags := 0, stx := ldb_stx_default }

/-- The binary-search loop of `ldb_schema_attribute_by_name`
(ldb_attributes.c:135-149), over inclusive `int` bounds `b..e`: probe the
midpoint, answer on a zero comparison, otherwise shrink the interval. -/
def by_name_loop (attrs : List LdbSchemaAttribute) (name : String)
    (b e : Int) : Option Nat :=
  if h : b ≤ e then
    let i := (b + e) / 2
    match attrs[i.toNat]? with
    | none => none
    | some a =>
      let r := ldb_attr_cmp name a.name
      if r = 0 then some i.toNat
      else if r < 0 then by_name_loop attrs name b (i - 1)
      else by_name_loop attrs name (i + 1) e
  else none
termination_by (e + 1 - b).toNat
decreasing_by
  · have hb : b ≤ (b + e) / 2 := by omega
    have he : (b + e) / 2 ≤ e := by omega
    omega
  · have hb : b ≤ (b + e) / 2 := by omega
    have he : (b + e) / 2 ≤ e := by omega
    omega

/-- `ldb_schema_attribute_by_name` (ldb_attributes.c:120) as the index it
resolves to: the binary search skips a leading `"*"` wildcard entry (checked
with exact `strcmp`); a miss resolves to the wildcard entry when present and
otherwise to the built-in default (`none`). -/
def ldb_schema_attribute_by_name_idx (attrs : List LdbSchemaAttribute)
    (name : String) : Option Nat :=
  let hasWild := match attrs[0]? with
    | some a => a.name == "*"
    | none => false
  let b : Int := if hasWild then 1 else 0
  match by_name_loop attrs name b ((attrs.length : Int) - 1) with
  | some i => some i
  | none => if hasWild then some 0 else none

/-- `ldb_schema_attribute_by_name` (ldb_attributes.c:120): the resolved entry. -/
def ldb_schema_attribute_by_name (attrs : List LdbSchemaAttribute)
    (name : String) : LdbSchemaAttribute :=
  match ldb_schema_attribute_by_name_idx attrs name with
  | some i => attrs[i]?.getD ldb_attribute_default
  | none => ldb_attribute_default

/-- `ldb_schema_attribute_remove` (ldb_attributes.c:158): resolve the name; the
built-in default (NULL name) and fixed entries are left alone; otherwise the
resolved entry — which on a miss is the wildcard entry itself — is removed from
the array. -/
def ldb_schema_attribute_remove (attrs : List LdbSchemaAttribute)
    (name : String) : List LdbSchemaAttribute :=
  match ldb_schema_attribute_by_name_idx attrs name with
  | none => attrs
  | some i =>
    match attrs[i]? with
    | none => attrs
    | some a =>
      if a.flags &&& LDB_ATTR_FLAG_FIXED ≠ 0 then attrs
      else attrs.eraseIdx i

/-! General lemmas about the store primitives -/

theorem tdb_store_ok (db : TdbStore) (k : String) (v : LdbMessage)
    (flgs : TdbStoreFlag) (db1 : TdbStore)
    (h : tdb_store db k v flgs = .ok db1) : db1 = tdbSet db k v := by
  cases flgs <;> simp only [tdb_store] at h
  case insert =>
    split at h
    · exact Except.noConfusion h
    · injection h with h
      exact h.symm
  case modify =>
    split at h
    · injection h with h
      exact h.symm
    · exact Except.noConfusion h
  case replace =>
    injection h with h
    exact h.symm

/-! Claim C1 -/

/-- C1.  `ltdb_store` (ldb_tdb.c:221) rolls a failed index update back: when
the primary write succeeded but `ltdb_index_add` failed, the just-written record
is deleted again, so an error return leaves no primary record present that was
not present before the call.  The hypothesis states the spec's contract for the
index manager (not under src/): index maintenance touches only index and meta
records, never records under a primary key. -/
theorem C1_ltdb_store_rollback (env : LtdbEnv) (db : TdbStore) (msg : LdbMessage)
    (flgs : TdbStoreFlag)
    (hidx : ∀ d m k, isPrimaryKey k →
      tdbLookup ((env.index_add d m).fst) k = tdbLookup d k) :
    ((ltdb_store env db msg flgs).snd ≠ LDB_SUCCESS →
      ∀ k, isPrimaryKey k →
        (tdbLookup (ltdb_store env db msg flgs).fst k).isSome →
        (tdbLookup db k).isSome)
    ∧ (∀ db1, tdb_store db (ltdb_key msg.dn) msg flgs = .ok db1 →
        (env.index_add db1 msg).snd ≠ LDB_SUCCESS →
        tdbLookup (ltdb_store env db msg flgs).fst (ltdb_key msg.dn) = none) := by
  constructor
  · intro herr k hk hsome
    unfold ltdb_store at herr hsome
    cases hst : tdb_store db (ltdb_key msg.dn) msg flgs with
    | error e =>
      rw [hst] at hsome
      exact hsome
    | ok db1 =>
      rw [hst] at herr hsome
      simp only at herr hsome
      have hdb1 : db1 = tdbSet db (ltdb_key msg.dn) msg := tdb_store_ok _ _ _ _ _ hst
      by_cases hia : (env.index_add db1 msg).snd ≠ LDB_SUCCESS
      · rw [if_pos hia] at hsome
        by_cases hkey : k = ltdb_key msg.dn
        · rw [hkey, tdbLookup_tdbRemove_self] at hsome
          exact absurd hsome (by simp)
        · rw [tdbLookup_tdbRemove_other _ _ _ (fun he => hkey he.symm)] at hsome
          rw [hidx db1 msg k hk] at hsome
          rw [hdb1, tdbLookup_tdbSet_other _ _ _ _ (fun he => hkey he.symm)] at hsome
          exact hsome
      · rw [if_neg hia] at herr
        push_neg at hia
        exact absurd hia herr
  · intro db1 hst hia
    unfold ltdb_store
    rw [hst]
    simp only
    rw [if_pos hia]
    exact tdbLookup_tdbRemove_self _ _

/-- An environment all of whose index operations succeed without touching the
store except that `index_add` always fails; used to witness C1. -/
def envIdxFail : LtdbEnv :=
  { cmpOf := fun _ a b => if a = b then 0 else 1
    index_add := fun d _ => (d, LDB_ERR_OPERATIONS_ERROR)
    index_del := fun d _ => (d, LDB_SUCCESS)
    index_one := fun d _ _ => (d, LDB_SUCCESS)
    index_del_value := fun d _ _ _ => (d, LDB_SUCCESS)
    reindex := fun d => (d, LDB_SUCCESS)
    at_val_ok := fun _ => true
    now := 99
    parseTime := fun t => t }

def dbC1 : TdbStore := [("DN=CN=B", ⟨"cn=b", []⟩)]

def msgC1 : LdbMessage := ⟨"cn=x", [⟨"cn", 0, [7]⟩]⟩

/-- Witness for C1 at a concrete input: a store holding `cn=b`, an insert of
`cn=x` whose index update fails; the error return keeps `cn=b` present before
and after, and the freshly written `cn=x` record is gone again. -/
theorem C1_witness :
    (tdbLookup dbC1 "DN=CN=B").isSome ∧
    tdbLookup (ltdb_store envIdxFail dbC1 msgC1 .insert).fst (ltdb_key msgC1.dn) = none := by
  have h := C1_ltdb_store_rollback envIdxFail dbC1 msgC1 .insert
    (fun d m k hk => rfl)
  refine ⟨?_, ?_⟩
  · exact h.1 (by decide) "DN=CN=B" (by decide) (by decide)
  · exact h.2 (tdbSet dbC1 (ltdb_key msgC1.dn) msgC1) rfl (by decide)

/-! Sequence-number lemmas -/

theorem attrEqb_refl (a : String) : attrEqb a a = true := by
  unfold attrEqb
  exact beq_self_eq_true _

theorem attrEqb_trans_ne (a b c : String) (hab : attrEqb a b = true)
    (hac : attrEqb a c = true) : attrEqb b c = true := by
  unfold attrEqb at *
  have h1 : strUpper a = strUpper b := eq_of_beq hab
  have h2 : strUpper a = strUpper c := eq_of_beq hac
  rw [← h1, ← h2]
  exact beq_self_eq_true _

theorem findAttr_setAttr_self (name : String) (v : Nat) (els : List LdbMsgElement) :
    ldb_msg_find_attr (msgSetAttr1 name v els) name = some v := by
  induction els with
  | nil => simp [msgSetAttr1, ldb_msg_find_attr, attrEqb_refl]
  | cons e rest ih =>
    by_cases h : attrEqb e.name name = true
    · simp [msgSetAttr1, ldb_msg_find_attr, h]
    · simp [msgSetAttr1, ldb_msg_find_attr, h, ih]

theorem findAttr_setAttr_other (n1 n2 : String) (v : Nat) (els : List LdbMsgElement)
    (hne : attrEqb n2 n1 = false) :
    ldb_msg_find_attr (msgSetAttr1 n2 v els) n1 = ldb_msg_find_attr els n1 := by
  induction els with
  | nil => simp [msgSetAttr1, ldb_msg_find_attr, hne]
  | cons e rest ih =>
    by_cases h : attrEqb e.name n2 = true
    · have h1 : attrEqb e.name n1 = false := by
        cases hq : attrEqb e.name n1 with
        | false => rfl
        | true => exact absurd (attrEqb_trans_ne e.name n2 n1 h hq) (by rw [hne]; simp)
      simp [msgSetAttr1, ldb_msg_find_attr, h, h1]
    · simp [msgSetAttr1, ldb_msg_find_attr, h, ih]

theorem seqOf_congr (d1 d2 : TdbStore)
    (h : tdbLookup d1 baseKey = tdbLookup d2 baseKey) : seqOf d1 = seqOf d2 := by
  unfold seqOf
  rw [h]

theorem seqOf_increase (env : LtdbEnv) (db : TdbStore) :
    seqOf (ltdb_increase_sequence_number env db).fst = seqOf db + 1 := by
  unfold ltdb_increase_sequence_number
  simp only
  unfold seqOf
  rw [tdbLookup_tdbSet_self]
  simp only
  rw [findAttr_setAttr_other _ _ _ _ (by decide), findAttr_setAttr_self]
  rfl

theorem increase_ret (env : LtdbEnv) (db : TdbStore) :
    (ltdb_increase_sequence_number env db).snd = LDB_SUCCESS := rfl

/-! Claim C7 -/

/-- C7.  `ltdb_modified` (ldb_tdb.c:199): (a) a successful run of the hook
for a DN other than `@BASEINFO` bumps the `@BASEINFO` sequence number by
exactly one; (b) for `@BASEINFO` itself the hook does nothing and succeeds;
(c) for `@INDEXLIST` and `@ATTRIBUTES` the hook is a full reindex followed — on
reindex success only — by the bump applied to the reindexed store.  The
hypothesis is the spec's contract for `ltdb_reindex` (not under src/): a reindex
rebuilds index records and leaves `@BASEINFO` alone. -/
theorem C7_ltdb_modified_seq (env : LtdbEnv) (db : TdbStore) (dn : String)
    (hre : ∀ d, tdbLookup (env.reindex d).fst baseKey = tdbLookup d baseKey) :
    (¬ (ldb_dn_is_special dn = true ∧ ldb_dn_check_special dn LTDB_BASEINFO = true) →
      (ltdb_modified env db dn).snd = LDB_SUCCESS →
      seqOf (ltdb_modified env db dn).fst = seqOf db + 1)
    ∧ (ldb_dn_is_special dn = true → ldb_dn_check_special dn LTDB_BASEINFO = true →
      ltdb_modified env db dn = (db, LDB_SUCCESS))
    ∧ (ldb_dn_is_special dn = true →
      (ldb_dn_check_special dn LTDB_INDEXLIST = true ∨
       ldb_dn_check_special dn LTDB_ATTRIBUTES = true) →
      ltdb_modified env db dn =
        (if (env.reindex db).snd = LDB_SUCCESS
         then ltdb_increase_sequence_number env (env.reindex db).fst
         else env.reindex db)) := by
  refine ⟨?_, ?_, ?_⟩
  · intro hnb hsucc
    unfold ltdb_modified at hsucc ⊢
    by_cases hc1 : ldb_dn_is_special dn = true ∧
        (ldb_dn_check_special dn LTDB_INDEXLIST = true ∨
         ldb_dn_check_special dn LTDB_ATTRIBUTES = true)
    · rw [if_pos hc1] at hsucc ⊢
      by_cases hr : (env.reindex db).snd = LDB_SUCCESS
      · rw [if_pos ⟨hr, hnb⟩] at hsucc ⊢
        rw [seqOf_increase]
        rw [seqOf_congr (env.reindex db).fst db (hre db)]
      · rw [if_neg (fun hq => hr hq.1)] at hsucc
        exact absurd hsucc hr
    · rw [if_neg hc1] at hsucc ⊢
      rw [if_pos ⟨rfl, hnb⟩] at hsucc ⊢
      exact seqOf_increase env db
  · intro hsp hb
    unfold ltdb_modified
    have hnil : ldb_dn_check_special dn LTDB_INDEXLIST = false := by
      rw [eq_of_beq hb]; decide
    have hnat : ldb_dn_check_special dn LTDB_ATTRIBUTES = false := by
      rw [eq_of_beq hb]; decide
    have hc1 : ¬ (ldb_dn_is_special dn = true ∧
        (ldb_dn_check_special dn LTDB_INDEXLIST = true ∨
         ldb_dn_check_special dn LTDB_ATTRIBUTES = true)) := by
      intro hq
      cases hq.2 with
      | inl h => rw [hnil] at h; exact Bool.noConfusion h
      | inr h => rw [hnat] at h; exact Bool.noConfusion h
    rw [if_neg hc1]
    rw [if_neg (fun hq => hq.2 ⟨hsp, hb⟩)]
  · intro hsp hil
    have hnbase : ldb_dn_check_special dn LTDB_BASEINFO = false := by
      cases hil with
      | inl h => rw [eq_of_beq h]; decide
      | inr h => rw [eq_of_beq h]; decide
    unfold ltdb_modified
    have hc1 : ldb_dn_is_special dn = true ∧
        (ldb_dn_check_special dn LTDB_INDEXLIST = true ∨
         ldb_dn_check_special dn LTDB_ATTRIBUTES = true) := ⟨hsp, hil⟩
    rw [if_pos hc1]
    have hnb : ¬ (ldb_dn_is_special dn = true ∧
        ldb_dn_check_special dn LTDB_BASEINFO = true) := by
      intro hq
      rw [hnbase] at hq
      exact Bool.noConfusion hq.2
    by_cases hr : (env.reindex db).snd = LDB_SUCCESS
    · rw [if_pos ⟨hr, hnb⟩, if_pos hr]
    · rw [if_neg (fun hq => hr hq.1), if_neg hr]

/-- An environment whose abstract operations all succeed without touching the
store. -/
def envOk : LtdbEnv :=
  { cmpOf := fun _ a b => if a = b then 0 else 1
    index_add := fun d _ => (d, LDB_SUCCESS)
    index_del := fun d _ => (d, LDB_SUCCESS)
    index_one := fun d _ _ => (d, LDB_SUCCESS)
    index_del_value := fun d _ _ _ => (d, LDB_SUCCESS)
    reindex := fun d => (d, LDB_SUCCESS)
    at_val_ok := fun _ => true
    now := 99
    parseTime := fun t => t }

def dbSeq : TdbStore := [("DN=@BASEINFO", ⟨"@BASEINFO", [⟨"sequenceNumber", 0, [5]⟩]⟩)]

/-- Witness for C7 at a concrete input: bumping after a mutation of `cn=x`
takes the concrete store from sequence number 5 to 6, and a mutation of
`@BASEINFO` leaves the store alone. -/
theorem C7_witness :
    seqOf (ltdb_modified envOk dbSeq "cn=x").fst = seqOf dbSeq + 1 ∧
    ltdb_modified envOk dbSeq "@BASEINFO" = (dbSeq, LDB_SUCCESS) := by
  have h1 := C7_ltdb_modified_seq envOk dbSeq "cn=x" (fun d => rfl)
  have h2 := C7_ltdb_modified_seq envOk dbSeq "@BASEINFO" (fun d => rfl)
  exact ⟨h1.1 (by decide) (by decide), h2.2.1 (by decide) (by decide)⟩

/-! Claim C8 -/

/-- C8.  `ltdb_sequence_number` (ldb_tdb.c:986): a missing `@BASEINFO`
yields success with sequence number zero for every query type; otherwise
`HIGHEST_SEQ` answers the stored sequence number, `NEXT` answers it plus one,
and `HIGHEST_TIMESTAMP` answers the parse of `modifyTimestamp`, or zero when
that attribute is absent.  In every case the store is returned unchanged. -/
theorem C8_ltdb_sequence_number_spec (env : LtdbEnv) (db : TdbStore) :
    (ltdb_search_dn1 db LTDB_BASEINFO = none →
      ∀ t, ltdb_sequence_number env db t = (db, LDB_SUCCESS, 0))
    ∧ (∀ msg n, ltdb_search_dn1 db LTDB_BASEINFO = some msg →
        ldb_msg_find_attr msg.elements LTDB_SEQUENCE_NUMBER = some n →
        ltdb_sequence_number env db .highest_seq = (db, LDB_SUCCESS, n)
        ∧ ltdb_sequence_number env db .next = (db, LDB_SUCCESS, n + 1))
    ∧ (∀ msg d, ltdb_search_dn1 db LTDB_BASEINFO = some msg →
        ldb_msg_find_attr msg.elements LTDB_MOD_TIMESTAMP = some d →
        ltdb_sequence_number env db .highest_timestamp = (db, LDB_SUCCESS, env.parseTime d))
    ∧ (∀ msg, ltdb_search_dn1 db LTDB_BASEINFO = some msg →
        ldb_msg_find_attr msg.elements LTDB_MOD_TIMESTAMP = none →
        ltdb_sequence_number env db .highest_timestamp = (db, LDB_SUCCESS, 0)) := by
  refine ⟨?_, ?_, ?_, ?_⟩
  · intro hmiss t
    unfold ltdb_sequence_number
    rw [hmiss]
  · intro msg n hfound hseq
    unfold ltdb_sequence_number
    rw [hfound]
    simp [hseq]
  · intro msg d hfound hts
    unfold ltdb_sequence_number
    rw [hfound]
    simp [hts]
  · intro msg hfound hts
    unfold ltdb_sequence_number
    rw [hfound]
    simp [hts]

/-- Witness for C8 at a concrete input: on a store whose `@BASEINFO` records
sequence number 5, `HIGHEST_SEQ` answers 5 and `NEXT` answers 6 (leaving the
store unchanged), and on the empty store every query type answers 0 with
success. -/
theorem C8_witness :
    ltdb_sequence_number envOk dbSeq .highest_seq = (dbSeq, LDB_SUCCESS, 5) ∧
    ltdb_sequence_number envOk dbSeq .next = (dbSeq, LDB_SUCCESS, 6) ∧
    ltdb_sequence_number envOk [] .highest_timestamp = ([], LDB_SUCCESS, 0) := by
  have h := C8_ltdb_sequence_number_spec envOk dbSeq
  have h0 := C8_ltdb_sequence_number_spec envOk []
  have hb := (h.2.1 ⟨"@BASEINFO", [⟨"sequenceNumber", 0, [5]⟩]⟩ 5 (by decide) (by decide))
  exact ⟨hb.1, hb.2, h0.1 (by decide) .highest_timestamp⟩

/-! Characterization of the linear scans -/

theorem findIdxFrom_none_iff (p : α → Bool) (l : List α) (i : Nat) :
    findIdxFrom p l i = none ↔ ∀ x ∈ l, p x = false := by
  induction l generalizing i with
  | nil => simp [findIdxFrom]
  | cons x xs ih =>
    by_cases h : p x
    · simp [findIdxFrom, h]
    · rw [Bool.not_eq_true] at h
      simp [findIdxFrom, h, ih]

theorem findIdxFrom_some (p : α → Bool) (l : List α) :
    ∀ i j, findIdxFrom p l i = some j →
      i ≤ j ∧ ∃ x, l[j - i]? = some x ∧ p x = true ∧
        ∀ m y, m < j - i → l[m]? = some y → p y = false := by
  induction l with
  | nil => intro i j h; exact Option.noConfusion h
  | cons x xs ih =>
    intro i j h
    by_cases hp : p x
    · rw [findIdxFrom, if_pos hp] at h
      injection h with h
      subst h
      refine ⟨Nat.le_refl _, x, ?_, hp, ?_⟩
      · simp
      · intro m y hm
        omega
    · rw [findIdxFrom, if_neg hp] at h
      obtain ⟨hij, y, hy, hpy, hbefore⟩ := ih (i + 1) j h
      rw [Bool.not_eq_true] at hp
      refine ⟨by omega, y, ?_, hpy, ?_⟩
      · have : j - i = (j - (i + 1)) + 1 := by omega
        rw [this]
        simpa using hy
      · intro m z hm hz
        match m, hz with
        | 0, hz =>
          have : z = x := by simpa using hz.symm
          rw [this]
          exact hp
        | m + 1, hz =>
          refine hbefore m z (by omega) ?_
          simpa using hz

theorem findIdxFrom_eq_some (p : α → Bool) (l : List α) :
    ∀ i k x, l[k]? = some x → p x = true →
      (∀ m y, m < k → l[m]? = some y → p y = false) →
      findIdxFrom p l i = some (i + k) := by
  induction l with
  | nil => intro i k x hk; simp at hk
  | cons z xs ih =>
    intro i k x hk hpx hbefore
    match k, hk with
    | 0, hk =>
      have hzx : z = x := by simpa using hk
      rw [findIdxFrom, if_pos (hzx ▸ hpx)]
      congr 1
    | k + 1, hk =>
      have hz : p z = false := hbefore 0 z (by omega) (by simp)
      rw [findIdxFrom, if_neg (by rw [hz]; exact Bool.noConfusion)]
      have := ih (i + 1) k x (by simpa using hk) hpx
        (fun m y hm hy => hbefore (m + 1) y (by omega) (by simpa using hy))
      rw [this]
      congr 1
      omega

theorem find_val_none_iff (cmp : Nat → Nat → Int) (vals : List Nat) (v : Nat) :
    ldb_msg_find_val cmp vals v = none ↔ ∀ w ∈ vals, cmp w v ≠ 0 := by
  unfold ldb_msg_find_val
  rw [findIdxFrom_none_iff]
  constructor
  · intro h w hw hc
    have := h w hw
    rw [hc] at this
    simp at this
  · intro h w hw
    have := h w hw
    simpa using this

/-! Semantics of the ADD-branch check loop -/

theorem addCheckList_true (cmp : Nat → Nat → Int) (xs full : List Nat) :
    ∀ (rest : List Nat) (j : Nat), addCheckList cmp xs full rest j = true →
      ∀ m v, rest[m]? = some v →
        ldb_msg_find_val cmp xs v = none ∧ ldb_msg_find_val cmp full v = some (j + m) := by
  intro rest
  induction rest with
  | nil =>
    intro j _ m v hm
    simp at hm
  | cons v0 rest ih =>
    intro j h m v hm
    rw [addCheckList, Bool.and_assoc, Bool.and_eq_true, Bool.and_eq_true] at h
    obtain ⟨h1, h2, h3⟩ := h
    match m, hm with
    | 0, hm =>
      have hv : v0 = v := by simpa using hm
      subst hv
      exact ⟨Option.eq_none_of_isNone h1, by simpa using eq_of_beq h2⟩
    | m + 1, hm =>
      have := ih (j + 1) h3 m v (by simpa using hm)
      refine ⟨this.1, ?_⟩
      rw [this.2]
      congr 1
      omega

theorem addCheckList_of (cmp : Nat → Nat → Int) (xs full : List Nat) :
    ∀ (rest : List Nat) (j : Nat),
      (∀ m v, rest[m]? = some v →
        ldb_msg_find_val cmp xs v = none ∧ ldb_msg_find_val cmp full v = some (j + m)) →
      addCheckList cmp xs full rest j = true := by
  intro rest
  induction rest with
  | nil => intro j _; rfl
  | cons v0 rest ih =>
    intro j h
    have h0 := h 0 v0 (by simp)
    rw [addCheckList, Bool.and_assoc, Bool.and_eq_true, Bool.and_eq_true]
    refine ⟨by rw [h0.1]; rfl, ?_, ?_⟩
    · have hj : j + 0 = j := by omega
      rw [h0.2, hj]
      exact beq_self_eq_true _
    · refine ih (j + 1) (fun m v hm => ?_)
      have := h (m + 1) v (by simpa using hm)
      refine ⟨this.1, ?_⟩
      rw [this.2]
      congr 1
      omega


/-! The modify ADD branch on an already-present attribute -/
theorem modifyApplyEl_add_present (env : LtdbEnv) (db : TdbStore)
    (msg2 : LdbMessage) (el : LdbMsgElement) (idx : Nat) (el2 : LdbMsgElement)
    (hflag : el.flags &&& LDB_FLAG_MOD_MASK = LDB_FLAG_MOD_ADD)
    (hfind : find_element msg2 el.name = some idx)
    (hel2 : msg2.elements[idx]? = some el2) :
    modifyApplyEl env db msg2 el =
      (if addCheckOk (env.cmpOf el.name) el2.values el.values then
        (db,
         { msg2 with elements :=
            msg2.elements.set idx { el2 with values := el2.values ++ el.values } },
         LDB_SUCCESS)
      else (db, msg2, LDB_ERR_ATTRIBUTE_OR_VALUE_EXISTS)) := by
  unfold modifyApplyEl
  rw [if_pos hflag, hfind]
  dsimp only
  rw [hel2]
theorem modifyLoop_single (env : LtdbEnv) (db : TdbStore) (msg2 : LdbMessage)
    (el : LdbMsgElement) :
    modifyLoop env db msg2 [el] =
      (if (modifyApplyEl env db msg2 el).snd.snd = LDB_SUCCESS
       then ((modifyApplyEl env db msg2 el).fst,
             (modifyApplyEl env db msg2 el).snd.fst, LDB_SUCCESS)
       else modifyApplyEl env db msg2 el) := by
  rw [modifyLoop]
  by_cases h : (modifyApplyEl env db msg2 el).snd.snd = LDB_SUCCESS
  · rw [if_pos h, if_pos h, modifyLoop]
  · rw [if_neg h, if_neg h]

theorem modify_single_add_fail (env : LtdbEnv) (db : TdbStore) (msg : LdbMessage)
    (el : LdbMsgElement) (stored : LdbMessage) (idx : Nat) (el2 : LdbMsgElement)
    (hels : msg.elements = [el])
    (hflag : el.flags &&& LDB_FLAG_MOD_MASK = LDB_FLAG_MOD_ADD)
    (hlook : tdbLookup db (ltdb_key msg.dn) = some stored)
    (hfind : find_element { stored with dn := msg.dn } el.name = some idx)
    (hel2 : stored.elements[idx]? = some el2)
    (hok : addCheckOk (env.cmpOf el.name) el2.values el.values = false) :
    ltdb_modify_internal env db msg = (db, LDB_ERR_ATTRIBUTE_OR_VALUE_EXISTS) := by
  unfold ltdb_modify_internal
  rw [hlook]
  dsimp only
  rw [hels, modifyLoop_single,
    modifyApplyEl_add_present env db _ el idx el2 hflag hfind hel2, hok]
  simp [LDB_SUCCESS, LDB_ERR_ATTRIBUTE_OR_VALUE_EXISTS]
theorem modify_single_add_ok (env : LtdbEnv) (db : TdbStore) (msg : LdbMessage)
    (el : LdbMsgElement) (stored : LdbMessage) (idx : Nat) (el2 : LdbMsgElement)
    (hels : msg.elements = [el])
    (hflag : el.flags &&& LDB_FLAG_MOD_MASK = LDB_FLAG_MOD_ADD)
    (hlook : tdbLookup db (ltdb_key msg.dn) = some stored)
    (hfind : find_element { stored with dn := msg.dn } el.name = some idx)
    (hel2 : stored.elements[idx]? = some el2)
    (hok : addCheckOk (env.cmpOf el.name) el2.values el.values = true)
    (hia : ∀ d m, (env.index_add d m).snd = LDB_SUCCESS)
    (hiap : ∀ d m, tdbLookup (env.index_add d m).fst (ltdb_key msg.dn) =
      tdbLookup d (ltdb_key msg.dn))
    (hnospec : ldb_dn_is_special msg.dn = false)
    (hkeyne : ltdb_key msg.dn ≠ baseKey) :
    (ltdb_modify_internal env db msg).snd = LDB_SUCCESS ∧
    tdbLookup (ltdb_modify_internal env db msg).fst (ltdb_key msg.dn) =
      some { stored with
              dn := msg.dn,
              elements := stored.elements.set idx
                { el2 with values := el2.values ++ el.values } } := by
  have hstore : tdb_store db (ltdb_key msg.dn)
      { stored with
         dn := msg.dn,
         elements := stored.elements.set idx
           { el2 with values := el2.values ++ el.values } } .modify =
      .ok (tdbSet db (ltdb_key msg.dn)
        { stored with
           dn := msg.dn,
           elements := stored.elements.set idx
             { el2 with values := el2.values ++ el.values } }) := by
    unfold tdb_store
    rw [hlook]
    rfl
  have hres : ltdb_modify_internal env db msg =
      ltdb_modified env
        (env.index_add
          (tdbSet db (ltdb_key msg.dn)
            { stored with
               dn := msg.dn,
               elements := stored.elements.set idx
                 { el2 with values := el2.values ++ el.values } })
          { stored with
             dn := msg.dn,
             elements := stored.elements.set idx
               { el2 with values := el2.values ++ el.values } }).fst
        msg.dn := by
    unfold ltdb_modify_internal
    rw [hlook]
    dsimp only
    rw [hels, modifyLoop_single,
      modifyApplyEl_add_present env db _ el idx el2 hflag hfind hel2, hok]
    simp only [if_true, if_pos rfl]
    rw [if_neg (by simp)]
    unfold ltdb_store
    rw [show ltdb_key ({ stored with
        dn := msg.dn,
        elements := stored.elements.set idx
          { el2 with values := el2.values ++ el.values } } : LdbMessage).dn =
      ltdb_key msg.dn from rfl]
    rw [hstore]
    dsimp only
    rw [if_neg (by rw [hia]; simp)]
    rw [hia]
    rw [if_neg (by simp)]
  rw [hres]
  unfold ltdb_modified
  have hnb : ¬ (ldb_dn_is_special msg.dn = true ∧
      ldb_dn_check_special msg.dn LTDB_BASEINFO = true) := by
    intro hq
    rw [hnospec] at hq
    exact Bool.noConfusion hq.1
  rw [if_neg (show ¬ (ldb_dn_is_special msg.dn = true ∧
      (ldb_dn_check_special msg.dn LTDB_INDEXLIST = true ∨
       ldb_dn_check_special msg.dn LTDB_ATTRIBUTES = true)) from fun hq => by
    rw [hnospec] at hq
    exact Bool.noConfusion hq.1)]
  rw [if_pos (show ((env.index_add
        (tdbSet db (ltdb_key msg.dn)
          { stored with
             dn := msg.dn,
             elements := stored.elements.set idx
               { el2 with values := el2.values ++ el.values } })
        { stored with
           dn := msg.dn,
           elements := stored.elements.set idx
             { el2 with values := el2.values ++ el.values } }).fst,
      LDB_SUCCESS).snd = LDB_SUCCESS ∧
      ¬ (ldb_dn_is_special msg.dn = true ∧
         ldb_dn_check_special msg.dn LTDB_BASEINFO = true) from ⟨rfl, hnb⟩)]
  constructor
  · exact increase_ret _ _
  · unfold ltdb_increase_sequence_number
    dsimp only
    rw [tdbLookup_tdbSet_other _ _ _ _ (Ne.symm hkeyne)]
    rw [hiap, tdbLookup_tdbSet_self]

/-! Membership and index conversions -/

theorem mem_of_getElem_some {α : Type} (l : List α) (n : Nat) (a : α)
    (h : l[n]? = some a) : a ∈ l := by
  have hn : n < l.length := by
    by_contra hc
    rw [List.getElem?_eq_none (by omega)] at h
    exact Option.noConfusion h
  rw [List.getElem?_eq_getElem hn] at h
  injection h with h
  rw [← h]
  exact List.getElem_mem hn

theorem getElem_some_of_mem {α : Type} (l : List α) (a : α) (h : a ∈ l) :
    ∃ n : Nat, l[n]? = some a := by
  obtain ⟨n, hn⟩ := List.get_of_mem h
  refine ⟨n.val, ?_⟩
  rw [List.getElem?_eq_getElem n.isLt]
  rw [← hn]
  simp

/-! Consequences of the ADD-branch check -/

theorem addCheckOk_spec (cmp : Nat → Nat → Int) (xs ys : List Nat)
    (hok : addCheckOk cmp xs ys = true) :
    ∀ m v, ys[m]? = some v →
      ldb_msg_find_val cmp xs v = none ∧ ldb_msg_find_val cmp ys v = some m := by
  intro m v hm
  have := addCheckList_true cmp xs ys ys 0 hok m v hm
  rwa [Nat.zero_add] at this

theorem addCheckOk_of (cmp : Nat → Nat → Int) (xs ys : List Nat)
    (h : ∀ m v, ys[m]? = some v →
      ldb_msg_find_val cmp xs v = none ∧ ldb_msg_find_val cmp ys v = some m) :
    addCheckOk cmp xs ys = true := by
  refine addCheckList_of cmp xs ys ys 0 (fun m v hm => ?_)
  rw [Nat.zero_add]
  exact h m v hm

/-- Values accepted by the ADD-branch check are free of duplicate pairs, both
among themselves and against the existing values (the incoming side needs the
check's first-match property; the symmetric direction needs zero-symmetry of
the comparison). -/
theorem addCheckOk_pairwise (cmp : Nat → Nat → Int) (xs ys : List Nat)
    (hok : addCheckOk cmp xs ys = true)
    (hsym : ∀ a b, cmp a b = 0 → cmp b a = 0)
    (hnd : List.Pairwise (fun a b => cmp a b ≠ 0 ∧ cmp b a ≠ 0) xs) :
    List.Pairwise (fun a b => cmp a b ≠ 0 ∧ cmp b a ≠ 0) (xs ++ ys) := by
  rw [List.pairwise_append]
  refine ⟨hnd, ?_, ?_⟩
  · rw [List.pairwise_iff_get]
    intro i j hij
    have hj : ys[j.val]? = some (ys.get j) := by
      rw [List.getElem?_eq_getElem j.isLt]
      simp
    have hspec := (addCheckOk_spec cmp xs ys hok j.val (ys.get j) hj).2
    unfold ldb_msg_find_val at hspec
    obtain ⟨hle, x, hx, hpx, hbefore⟩ := findIdxFrom_some _ ys 0 j.val hspec
    have hi : ys[i.val]? = some (ys.get i) := by
      rw [List.getElem?_eq_getElem i.isLt]
      simp
    have h1 : (cmp (ys.get i) (ys.get j) == 0) = false := by
      refine hbefore i.val (ys.get i) ?_ hi
      omega
    have h1' : cmp (ys.get i) (ys.get j) ≠ 0 := by
      intro hc
      rw [hc] at h1
      simp at h1
    exact ⟨h1', fun hc => h1' (hsym _ _ hc)⟩
  · intro a ha b hb
    obtain ⟨m, hm⟩ := getElem_some_of_mem ys b hb
    have hspec := (addCheckOk_spec cmp xs ys hok m b hm).1
    rw [find_val_none_iff] at hspec
    exact ⟨hspec a ha, fun hc => hspec a ha (hsym _ _ hc)⟩

/-! Claim C2 -/

def dbC2 : TdbStore := [("DN=CN=X", ⟨"cn=x", [⟨"member", 0, [0]⟩]⟩)]

def msgC2 : LdbMessage := ⟨"cn=x", [⟨"member", 1, [1, 1]⟩]⟩

/-- C2, counterexample.  The stored entry has `member` with the single
value `0`; the modify ADD brings the values `[1, 1]`, neither of which compares
equal to the existing value — yet the modify fails with
*attribute-or-value-exists* (because the value is repeated within the incoming
list) instead of concatenating as the claim states. -/
theorem C2_counterexample :
    envOk.cmpOf "member" 0 1 ≠ 0 ∧
    envOk.cmpOf "member" 1 1 = 0 ∧
    ltdb_modify_internal envOk dbC2 msgC2 = (dbC2, LDB_ERR_ATTRIBUTE_OR_VALUE_EXISTS) := by
  refine ⟨by decide, by decide, by decide⟩

/-- C2, amended.  Modify with a single ADD element whose attribute is
already present in the stored record (ldb_tdb.c:646-695): if some incoming
value compares equal — zero under the attribute's syntax comparison — to an
existing value of that element, the modify fails with
*attribute-or-value-exists* and the stored record is unchanged; otherwise,
provided additionally that no incoming value compares equal to an earlier
incoming value (an internal repeat also fails with *attribute-or-value-exists*),
the incoming values are concatenated onto the existing element and stored.  The
success branch assumes a reflexive-at-zero comparison, a succeeding index
manager that leaves the record's key alone, and a non-special DN. -/
theorem C2_modify_add_existing (env : LtdbEnv) (db : TdbStore) (msg : LdbMessage)
    (el : LdbMsgElement) (stored : LdbMessage) (idx : Nat) (el2 : LdbMsgElement)
    (hels : msg.elements = [el])
    (hflag : el.flags &&& LDB_FLAG_MOD_MASK = LDB_FLAG_MOD_ADD)
    (hlook : tdbLookup db (ltdb_key msg.dn) = some stored)
    (hfind : find_element { stored with dn := msg.dn } el.name = some idx)
    (hel2 : stored.elements[idx]? = some el2) :
    ((∃ v ∈ el.values, ∃ w ∈ el2.values, env.cmpOf el.name w v = 0) →
      ltdb_modify_internal env db msg = (db, LDB_ERR_ATTRIBUTE_OR_VALUE_EXISTS))
    ∧ ((∀ v, env.cmpOf el.name v v = 0) →
       (∀ v ∈ el.values, ∀ w ∈ el2.values, env.cmpOf el.name w v ≠ 0) →
       (∀ (p q vp vq : Nat), p < q → el.values[p]? = some vp → el.values[q]? = some vq →
          env.cmpOf el.name vp vq ≠ 0) →
       (∀ d m, (env.index_add d m).snd = LDB_SUCCESS) →
       (∀ d m, tdbLookup (env.index_add d m).fst (ltdb_key msg.dn) =
          tdbLookup d (ltdb_key msg.dn)) →
       ldb_dn_is_special msg.dn = false →
       ltdb_key msg.dn ≠ baseKey →
       (ltdb_modify_internal env db msg).snd = LDB_SUCCESS ∧
       tdbLookup (ltdb_modify_internal env db msg).fst (ltdb_key msg.dn) =
         some { stored with
                 dn := msg.dn,
                 elements := stored.elements.set idx
                   { el2 with values := el2.values ++ el.values } }) := by
  constructor
  · intro hdup
    obtain ⟨v, hv, w, hw, hc⟩ := hdup
    refine modify_single_add_fail env db msg el stored idx el2 hels hflag hlook
      hfind hel2 ?_
    cases hok : addCheckOk (env.cmpOf el.name) el2.values el.values with
    | false => rfl
    | true =>
      exfalso
      obtain ⟨m, hm⟩ := getElem_some_of_mem el.values v hv
      have hspec := (addCheckOk_spec _ _ _ hok m v hm).1
      rw [find_val_none_iff] at hspec
      exact hspec w hw hc
  · intro hrefl hcross hpair hia hiap hnospec hkeyne
    have hok : addCheckOk (env.cmpOf el.name) el2.values el.values = true := by
      refine addCheckOk_of _ _ _ (fun m v hm => ?_)
      constructor
      · rw [find_val_none_iff]
        exact fun w hw => hcross v (mem_of_getElem_some _ _ _ hm) w hw
      · unfold ldb_msg_find_val
        have := findIdxFrom_eq_some (fun w => env.cmpOf el.name w v == 0)
          el.values 0 m v hm
          (by
            show (env.cmpOf el.name v v == 0) = true
            rw [hrefl v]
            rfl)
          (fun p y hp hy => by
            have hne := hpair p m y v hp hy hm
            show (env.cmpOf el.name y v == 0) = false
            cases hq : (env.cmpOf el.name y v == 0) with
            | false => rfl
            | true => exact absurd (eq_of_beq hq) hne)
        rwa [Nat.zero_add] at this
    exact modify_single_add_ok env db msg el stored idx el2 hels hflag hlook
      hfind hel2 hok hia hiap hnospec hkeyne

def dbC2w : TdbStore := [("DN=CN=X", ⟨"cn=x", [⟨"member", 0, [0]⟩]⟩)]

def msgC2w : LdbMessage := ⟨"cn=x", [⟨"member", 1, [1, 2]⟩]⟩

/-- Witness for the amended C2 at a concrete input: ADD of the distinct fresh
values `[1, 2]` to the element holding `[0]` succeeds and stores `[0, 1, 2]`,
and ADD of a value equal to an existing one fails leaving the store unchanged. -/
theorem C2_witness :
    ((ltdb_modify_internal envOk dbC2w msgC2w).snd = LDB_SUCCESS ∧
     tdbLookup (ltdb_modify_internal envOk dbC2w msgC2w).fst (ltdb_key "cn=x") =
       some ⟨"cn=x", [⟨"member", 0, [0, 1, 2]⟩]⟩) ∧
    ltdb_modify_internal envOk dbC2w ⟨"cn=x", [⟨"member", 1, [0]⟩]⟩ =
      (dbC2w, LDB_ERR_ATTRIBUTE_OR_VALUE_EXISTS) := by
  constructor
  · refine (C2_modify_add_existing envOk dbC2w msgC2w ⟨"member", 1, [1, 2]⟩
      ⟨"cn=x", [⟨"member", 0, [0]⟩]⟩ 0 ⟨"member", 0, [0]⟩
      rfl (by decide) (by decide) (by decide) (by decide)).2
      (fun v => by simp [envOk])
      (by decide)
      (fun p q vp vq hpq hp hq => by
        have hq2 : q < 2 := by
          by_contra hcq
          rw [List.getElem?_eq_none (by simp; omega)] at hq
          exact Option.noConfusion hq
        have hp0 : p = 0 := by omega
        have hq1 : q = 1 := by omega
        subst hp0
        subst hq1
        have h1 : vp = 1 := by
          have := hp
          simp at this
          omega
        have h2 : vq = 2 := by
          have := hq
          simp at this
          omega
        subst h1
        subst h2
        decide)
      (fun d m => rfl) (fun d m => rfl) (by decide) (by decide)
  · exact (C2_modify_add_existing envOk dbC2w ⟨"cn=x", [⟨"member", 1, [0]⟩]⟩
      ⟨"member", 1, [0]⟩ ⟨"cn=x", [⟨"member", 0, [0]⟩]⟩ 0 ⟨"member", 0, [0]⟩
      rfl (by decide) (by decide) (by decide) (by decide)).1
      ⟨0, by decide, 0, by decide, by decide⟩

/-! Claim C3 -/

def dbC3 : TdbStore := [("DN=CN=X", ⟨"cn=x", []⟩)]

def msgC3 : LdbMessage := ⟨"cn=x", [⟨"a", 1, [5, 5]⟩]⟩

/-- C3, counterexample.  A modify ADD of an attribute that is *not yet
present* in the stored record (ldb_tdb.c:651-657, `msg_add_element`) appends
the incoming element verbatim, with no duplicate check: adding the fresh
attribute `a` with values `[5, 5]` — which compare equal under the syntax
comparison — succeeds and stores the element with the duplicate pair, violating
the claimed invariant. -/
theorem C3_counterexample :
    (ltdb_modify_internal envOk dbC3 msgC3).snd = LDB_SUCCESS ∧
    tdbLookup (ltdb_modify_internal envOk dbC3 msgC3).fst (ltdb_key "cn=x") =
      some ⟨"cn=x", [⟨"a", 1, [5, 5]⟩]⟩ ∧
    envOk.cmpOf "a" 5 5 = 0 := by
  refine ⟨by decide, by decide, by decide⟩

/-- C3, amended.  The duplicate-value invariant is preserved by the modify
ADD branch for an attribute that is already present (and by the analogous
checked branches), but *not* by the ADD branch for an absent attribute, which
appends the incoming element verbatim: here, for a single ADD to a present
element whose stored values contain no duplicate pair (under a comparison whose
zero relation is symmetric), a successful modify stores the concatenated value
list and that list again contains no two values comparing equal. -/
theorem C3_add_existing_no_dup (env : LtdbEnv) (db : TdbStore) (msg : LdbMessage)
    (el : LdbMsgElement) (stored : LdbMessage) (idx : Nat) (el2 : LdbMsgElement)
    (hels : msg.elements = [el])
    (hflag : el.flags &&& LDB_FLAG_MOD_MASK = LDB_FLAG_MOD_ADD)
    (hlook : tdbLookup db (ltdb_key msg.dn) = some stored)
    (hfind : find_element { stored with dn := msg.dn } el.name = some idx)
    (hel2 : stored.elements[idx]? = some el2)
    (hok : addCheckOk (env.cmpOf el.name) el2.values el.values = true)
    (hia : ∀ d m, (env.index_add d m).snd = LDB_SUCCESS)
    (hiap : ∀ d m, tdbLookup (env.index_add d m).fst (ltdb_key msg.dn) =
      tdbLookup d (ltdb_key msg.dn))
    (hnospec : ldb_dn_is_special msg.dn = false)
    (hkeyne : ltdb_key msg.dn ≠ baseKey)
    (hsym : ∀ a b, env.cmpOf el.name a b = 0 → env.cmpOf el.name b a = 0)
    (hnd : List.Pairwise
      (fun a b => env.cmpOf el.name a b ≠ 0 ∧ env.cmpOf el.name b a ≠ 0)
      el2.values) :
    (ltdb_modify_internal env db msg).snd = LDB_SUCCESS ∧
    tdbLookup (ltdb_modify_internal env db msg).fst (ltdb_key msg.dn) =
      some { stored with
              dn := msg.dn,
              elements := stored.elements.set idx
                { el2 with values := el2.values ++ el.values } } ∧
    List.Pairwise
      (fun a b => env.cmpOf el.name a b ≠ 0 ∧ env.cmpOf el.name b a ≠ 0)
      (el2.values ++ el.values) := by
  have h := modify_single_add_ok env db msg el stored idx el2 hels hflag hlook
    hfind hel2 hok hia hiap hnospec hkeyne
  exact ⟨h.1, h.2, addCheckOk_pairwise _ _ _ hok hsym hnd⟩

/-- Witness for the amended C3 at a concrete input: ADD of `[1, 2]` to the
element holding `[0]` stores `[0, 1, 2]`, which contains no pair of values
comparing equal. -/
theorem C3_witness :
    (ltdb_modify_internal envOk dbC2w msgC2w).snd = LDB_SUCCESS ∧
    List.Pairwise
      (fun a b => envOk.cmpOf "member" a b ≠ 0 ∧ envOk.cmpOf "member" b a ≠ 0)
      ([0] ++ [1, 2]) := by
  have h := C3_add_existing_no_dup envOk dbC2w msgC2w ⟨"member", 1, [1, 2]⟩
    ⟨"cn=x", [⟨"member", 0, [0]⟩]⟩ 0 ⟨"member", 0, [0]⟩
    rfl (by decide) (by decide) (by decide) (by decide) (by decide)
    (fun d m => rfl) (fun d m => rfl) (by decide) (by decide)
    (fun a b hab => by
      simp [envOk] at hab ⊢
      omega)
    (by
      constructor
      · intro b hb
        simp at hb
      · exact List.Pairwise.nil)
  exact ⟨h.1, h.2.2⟩

/-! Claim C4 -/

def dbC4 : TdbStore := [("DN=CN=X", ⟨"cn=x", [⟨"b", 0, [1]⟩]⟩)]

def msgC4 : LdbMessage := ⟨"cn=x", [⟨"mail", 3, []⟩]⟩

def msgC4b : LdbMessage := ⟨"cn=x", [⟨"b", 3, []⟩]⟩

/-- C4, evaluation at the failing input.  A modify with a zero-value
DELETE of the attribute `mail`, which is absent from the stored record,
*succeeds* and leaves the record unchanged — the source's `msg_delete_attribute`
(ldb_tdb.c:511) returns 0 even when no element matched, so the
*no-such-attribute* branch at ldb_tdb.c:729-734 is unreachable for an absent
attribute.  (The claim's second half does hold: a zero-value DELETE of the
present attribute `b` removes the entire element.) -/
theorem C4_delete_absent_attribute :
    (ltdb_modify_internal envOk dbC4 msgC4).snd = LDB_SUCCESS ∧
    tdbLookup (ltdb_modify_internal envOk dbC4 msgC4).fst (ltdb_key "cn=x") =
      some ⟨"cn=x", [⟨"b", 0, [1]⟩]⟩ ∧
    (ltdb_modify_internal envOk dbC4 msgC4b).snd = LDB_SUCCESS ∧
    tdbLookup (ltdb_modify_internal envOk dbC4 msgC4b).fst (ltdb_key "cn=x") =
      some ⟨"cn=x", []⟩ := by
  refine ⟨by decide, by decide, by decide, by decide⟩

/-! Claim C5 -/

/-- C5.  `ltdb_rename` (ldb_tdb.c:898-913) for DNs that are inequivalent
under the directory's DN equivalence: the new record is added first and the old
deleted second; when the add succeeded but deleting the old DN fails, the
backend attempts a compensating delete of the newly-added record and reports
*operations-error* — whatever the outcome of the compensating delete, in
particular when it also fails. -/
theorem C5_rename_add_then_delete (env : LtdbEnv) (db : TdbStore)
    (olddn newdn : String) (msg0 : LdbMessage) (db1 : TdbStore)
    (hfetch : ltdb_search_dn1 db olddn = some msg0)
    (hne : ldb_dn_compare olddn newdn ≠ 0)
    (hadd : ltdb_add_internal env db { msg0 with dn := newdn } = (db1, LDB_SUCCESS)) :
    (∀ db2 r2, ltdb_delete_internal env db1 olddn = (db2, r2) → r2 ≠ LDB_SUCCESS →
      ltdb_rename env db olddn newdn =
        ((ltdb_delete_internal env db2 newdn).fst, LDB_ERR_OPERATIONS_ERROR))
    ∧ (∀ db2, ltdb_delete_internal env db1 olddn = (db2, LDB_SUCCESS) →
      ltdb_rename env db olddn newdn = (db2, LDB_SUCCESS)) := by
  constructor
  · intro db2 r2 hdel hr2
    unfold ltdb_rename
    rw [hfetch]
    dsimp only
    rw [if_neg hne, hadd]
    dsimp only
    rw [if_neg (by simp), hdel]
    dsimp only
    rw [if_pos hr2]
  · intro db2 hdel
    unfold ltdb_rename
    rw [hfetch]
    dsimp only
    rw [if_neg hne, hadd]
    dsimp only
    rw [if_neg (by simp), hdel]
    dsimp only
    rw [if_neg (by simp)]

/-- An environment whose index operations succeed except `index_one` in the
remove direction, so that deleting a record fails after adding one succeeded;
used to witness C5. -/
def envDelFail : LtdbEnv :=
  { envOk with
     index_one := fun d _ b => if b then (d, LDB_SUCCESS) else (d, LDB_ERR_OPERATIONS_ERROR) }

def dbC5 : TdbStore := [("DN=CN=X", ⟨"cn=x", [⟨"b", 0, [1]⟩]⟩)]

def dbC5mid : TdbStore :=
  [("DN=CN=X", ⟨"cn=x", [⟨"b", 0, [1]⟩]⟩),
   ("DN=CN=Y", ⟨"cn=y", [⟨"b", 0, [1]⟩]⟩),
   ("DN=@BASEINFO", ⟨"@BASEINFO",
     [⟨"sequenceNumber", 0, [1]⟩, ⟨"modifyTimestamp", 0, [99]⟩]⟩)]

def dbC5del : TdbStore :=
  [("DN=CN=Y", ⟨"cn=y", [⟨"b", 0, [1]⟩]⟩),
   ("DN=@BASEINFO", ⟨"@BASEINFO",
     [⟨"sequenceNumber", 0, [1]⟩, ⟨"modifyTimestamp", 0, [99]⟩]⟩)]

/-- Witness for C5 at a concrete input: renaming `cn=x` to `cn=y` where the add
of `cn=y` succeeds and the subsequent delete of `cn=x` fails; the backend then
attempts the compensating delete of `cn=y` (which here fails as well) and
reports *operations-error*. -/
theorem C5_witness :
    ltdb_rename envDelFail dbC5 "cn=x" "cn=y" =
      ((ltdb_delete_internal envDelFail dbC5del "cn=y").fst, LDB_ERR_OPERATIONS_ERROR) := by
  exact (C5_rename_add_then_delete envDelFail dbC5 "cn=x" "cn=y"
    ⟨"cn=x", [⟨"b", 0, [1]⟩]⟩ dbC5mid
    (by decide) (by decide) (by decide)).1 dbC5del LDB_ERR_OPERATIONS_ERROR
    (by decide) (by decide)

/-! Sequence tracking through delete and add -/

/-- The spec's contract for the index manager and the reindexer (ldb_index.c,
not under src/): index maintenance rewrites index records only and never
touches the `@BASEINFO` record. -/
structure EnvPreservesBase (env : LtdbEnv) : Prop where
  index_add : ∀ d m, tdbLookup (env.index_add d m).fst baseKey = tdbLookup d baseKey
  index_del : ∀ d m, tdbLookup (env.index_del d m).fst baseKey = tdbLookup d baseKey
  index_one : ∀ d m b, tdbLookup (env.index_one d m b).fst baseKey = tdbLookup d baseKey
  reindex : ∀ d, tdbLookup (env.reindex d).fst baseKey = tdbLookup d baseKey

theorem ltdb_modified_bump (env : LtdbEnv) (db : TdbStore) (dn : String)
    (hre : ∀ d, tdbLookup (env.reindex d).fst baseKey = tdbLookup d baseKey)
    (hnb : ¬ (ldb_dn_is_special dn = true ∧ ldb_dn_check_special dn LTDB_BASEINFO = true))
    (hsucc : (ltdb_modified env db dn).snd = LDB_SUCCESS) :
    seqOf (ltdb_modified env db dn).fst = seqOf db + 1 := by
  unfold ltdb_modified at hsucc ⊢
  by_cases hc1 : ldb_dn_is_special dn = true ∧
      (ldb_dn_check_special dn LTDB_INDEXLIST = true ∨
       ldb_dn_check_special dn LTDB_ATTRIBUTES = true)
  · rw [if_pos hc1] at hsucc ⊢
    by_cases hr : (env.reindex db).snd = LDB_SUCCESS
    · rw [if_pos ⟨hr, hnb⟩] at hsucc ⊢
      rw [seqOf_increase]
      rw [seqOf_congr (env.reindex db).fst db (hre db)]
    · rw [if_neg (fun hq => hr hq.1)] at hsucc
      exact absurd hsucc hr
  · rw [if_neg hc1] at hsucc ⊢
    rw [if_pos ⟨rfl, hnb⟩] at hsucc ⊢
    exact seqOf_increase env db

theorem ltdb_err_map_ne (e : TdbError) : ltdb_err_map e ≠ LDB_SUCCESS := by
  cases e <;> decide

theorem key_ne_base_not_baseinfo (dn : String) (hkey : ltdb_key dn ≠ baseKey) :
    ¬ (ldb_dn_is_special dn = true ∧ ldb_dn_check_special dn LTDB_BASEINFO = true) := by
  intro hq
  apply hkey
  rw [eq_of_beq hq.2]
  rfl

theorem ltdb_store_base (env : LtdbEnv) (db : TdbStore) (msg : LdbMessage)
    (flgs : TdbStoreFlag)
    (hia : ∀ d m, tdbLookup (env.index_add d m).fst baseKey = tdbLookup d baseKey)
    (hkey : ltdb_key msg.dn ≠ baseKey)
    (h : (ltdb_store env db msg flgs).snd = LDB_SUCCESS) :
    tdbLookup (ltdb_store env db msg flgs).fst baseKey = tdbLookup db baseKey := by
  unfold ltdb_store at h ⊢
  cases hst : tdb_store db (ltdb_key msg.dn) msg flgs with
  | error e =>
    simp only [hst]
  | ok db1 =>
    simp only [hst] at h ⊢
    by_cases hr : (env.index_add db1 msg).snd ≠ LDB_SUCCESS
    · rw [if_pos hr] at h
      exact absurd h hr
    · rw [if_neg hr]
      rw [hia db1 msg]
      rw [tdb_store_ok db _ msg flgs db1 hst]
      exact tdbLookup_tdbSet_other _ _ _ _ hkey

theorem delete_internal_seq (env : LtdbEnv) (db : TdbStore) (dn : String)
    (d' : TdbStore)
    (hpres : EnvPreservesBase env)
    (hkey : ltdb_key dn ≠ baseKey)
    (h : ltdb_delete_internal env db dn = (d', LDB_SUCCESS)) :
    seqOf d' = seqOf db + 1 := by
  unfold ltdb_delete_internal at h
  cases hs : ltdb_search_dn1 db dn with
  | none =>
    rw [hs] at h
    injection h with h1 h2
    exact absurd h2 (by decide)
  | some msg =>
    rw [hs] at h
    dsimp only at h
    have hlk : (tdbLookup db (ltdb_key dn)).isSome := by
      unfold ltdb_search_dn1 at hs
      cases hl : tdbLookup db (ltdb_key dn) with
      | none => rw [hl] at hs; exact Option.noConfusion hs
      | some m => rfl
    have hdni : ltdb_delete_noindex db dn = (tdbRemove db (ltdb_key dn), LDB_SUCCESS) := by
      unfold ltdb_delete_noindex tdb_delete
      rw [if_pos hlk]
    rw [hdni] at h
    dsimp only at h
    rw [if_neg (by simp)] at h
    by_cases h1 : (env.index_one (tdbRemove db (ltdb_key dn)) msg false).snd ≠ LDB_SUCCESS
    · rw [if_pos h1] at h
      exact absurd (congrArg Prod.snd h) h1
    · rw [if_neg h1] at h
      by_cases h2 : (env.index_del
          (env.index_one (tdbRemove db (ltdb_key dn)) msg false).fst msg).snd ≠ LDB_SUCCESS
      · rw [if_pos h2] at h
        exact absurd (congrArg Prod.snd h) h2
      · rw [if_neg h2] at h
        have hsnd := congrArg Prod.snd h
        have hfst := congrArg Prod.fst h
        have hb := ltdb_modified_bump env _ dn hpres.reindex
          (key_ne_base_not_baseinfo dn hkey) hsnd
        rw [hfst] at hb
        rw [hb]
        congr 1
        refine seqOf_congr _ _ ?_
        rw [hpres.index_del, hpres.index_one]
        exact tdbLookup_tdbRemove_other _ _ _ hkey

theorem add_internal_seq (env : LtdbEnv) (db : TdbStore) (msg : LdbMessage)
    (d' : TdbStore)
    (hpres : EnvPreservesBase env)
    (hkey : ltdb_key msg.dn ≠ baseKey)
    (h : ltdb_add_internal env db msg = (d', LDB_SUCCESS)) :
    seqOf d' = seqOf db + 1 := by
  unfold ltdb_add_internal at h
  by_cases h0 : ltdb_check_special_dn env msg ≠ LDB_SUCCESS
  · rw [if_pos h0] at h
    injection h with h1 h2
    exact absurd h2 h0
  · rw [if_neg h0] at h
    by_cases he : (ltdb_store env db msg .insert).snd = LDB_ERR_ENTRY_ALREADY_EXISTS
    · rw [if_pos he] at h
      have hsnd := congrArg Prod.snd h
      dsimp only at hsnd
      rw [he] at hsnd
      exact absurd hsnd (by decide)
    · rw [if_neg he] at h
      by_cases hs : (ltdb_store env db msg .insert).snd = LDB_SUCCESS
      · rw [if_pos hs] at h
        by_cases h1 : (env.index_one (ltdb_store env db msg .insert).fst msg true).snd ≠
            LDB_SUCCESS
        · rw [if_pos h1] at h
          exact absurd (congrArg Prod.snd h) h1
        · rw [if_neg h1] at h
          have hsnd := congrArg Prod.snd h
          have hfst := congrArg Prod.fst h
          have hb := ltdb_modified_bump env _ msg.dn hpres.reindex
            (key_ne_base_not_baseinfo msg.dn hkey) hsnd
          rw [hfst] at hb
          rw [hb]
          congr 1
          refine seqOf_congr _ _ ?_
          rw [hpres.index_one]
          exact ltdb_store_base env db msg .insert hpres.index_add hkey hs
      · rw [if_neg hs] at h
        exact absurd (congrArg Prod.snd h) hs

/-! Claim C6 -/

def dbC6 : TdbStore :=
  [("DN=@BASEINFO", ⟨"@BASEINFO", [⟨"sequenceNumber", 0, [5]⟩]⟩)]

/-- C6, counterexample.  A rename whose old and new DN are equivalent is
performed delete-then-add, but a *successful* such rename does not always bump
the sequence number by 2: renaming `@BASEINFO` onto itself succeeds while
`ltdb_modified` skips the bump for `@BASEINFO` (ldb_tdb.c:209-211), so the
sequence number is unchanged rather than increased by 2. -/
theorem C6_counterexample :
    ldb_dn_compare "@BASEINFO" "@BASEINFO" = 0 ∧
    (ltdb_rename envOk dbC6 "@BASEINFO" "@BASEINFO").snd = LDB_SUCCESS ∧
    seqOf (ltdb_rename envOk dbC6 "@BASEINFO" "@BASEINFO").fst = 5 ∧
    seqOf dbC6 = 5 ∧
    ¬ seqOf (ltdb_rename envOk dbC6 "@BASEINFO" "@BASEINFO").fst = seqOf dbC6 + 2 := by
  refine ⟨by decide, by decide, by decide, by decide, by decide⟩

/-- C6, amended.  `ltdb_rename` (ldb_tdb.c:881-897) for equivalent old and
new DN performs delete-of-old-DN followed by add-of-new-record, and a
successful such rename of a DN *other than `@BASEINFO`* increments
`@BASEINFO.sequenceNumber` by exactly 2 (one bump from the delete and one from
the add); a case-only rename of `@BASEINFO` itself leaves the sequence number
un-bumped.  The index manager is assumed to leave `@BASEINFO` alone, per the
spec's contract for ldb_index.c. -/
theorem C6_rename_case_only (env : LtdbEnv) (db : TdbStore)
    (olddn newdn : String) (msg0 : LdbMessage) (db' : TdbStore)
    (hpres : EnvPreservesBase env)
    (hkold : ltdb_key olddn ≠ baseKey)
    (hknew : ltdb_key newdn ≠ baseKey)
    (hfetch : ltdb_search_dn1 db olddn = some msg0)
    (heq : ldb_dn_compare olddn newdn = 0)
    (hrun : ltdb_rename env db olddn newdn = (db', LDB_SUCCESS)) :
    ltdb_rename env db olddn newdn =
      (if (ltdb_delete_internal env db olddn).snd ≠ LDB_SUCCESS
       then ltdb_delete_internal env db olddn
       else ltdb_add_internal env (ltdb_delete_internal env db olddn).fst
         { msg0 with dn := newdn }) ∧
    seqOf db' = seqOf db + 2 := by
  have hshape : ltdb_rename env db olddn newdn =
      (if (ltdb_delete_internal env db olddn).snd ≠ LDB_SUCCESS
       then ltdb_delete_internal env db olddn
       else ltdb_add_internal env (ltdb_delete_internal env db olddn).fst
         { msg0 with dn := newdn }) := by
    unfold ltdb_rename
    rw [hfetch]
    dsimp only
    rw [if_pos heq]
  refine ⟨hshape, ?_⟩
  rw [hshape] at hrun
  by_cases hd : (ltdb_delete_internal env db olddn).snd ≠ LDB_SUCCESS
  · rw [if_pos hd] at hrun
    exact absurd (congrArg Prod.snd hrun) hd
  · rw [if_neg hd] at hrun
    push_neg at hd
    have hdel : ltdb_delete_internal env db olddn =
        ((ltdb_delete_internal env db olddn).fst, LDB_SUCCESS) := by
      rw [← hd]
    have h1 := delete_internal_seq env db olddn
      (ltdb_delete_internal env db olddn).fst hpres hkold hdel
    have h2 := add_internal_seq env (ltdb_delete_internal env db olddn).fst
      { msg0 with dn := newdn } db' hpres hknew hrun
    rw [h1] at h2
    omega

def dbC6w : TdbStore :=
  [("DN=CN=X", ⟨"cn=x", [⟨"b", 0, [1]⟩]⟩),
   ("DN=@BASEINFO", ⟨"@BASEINFO", [⟨"sequenceNumber", 0, [5]⟩]⟩)]

def dbC6w' : TdbStore :=
  [("DN=@BASEINFO", ⟨"@BASEINFO",
     [⟨"sequenceNumber", 0, [7]⟩, ⟨"modifyTimestamp", 0, [99]⟩]⟩),
   ("DN=CN=X", ⟨"CN=x", [⟨"b", 0, [1]⟩]⟩)]

/-- Witness for the amended C6 at a concrete input: the case-only rename
`cn=x → CN=x` succeeds and takes the sequence number from 5 to 7. -/
theorem C6_witness :
    seqOf dbC6w' = seqOf dbC6w + 2 ∧
    ltdb_rename envOk dbC6w "cn=x" "CN=x" = (dbC6w', LDB_SUCCESS) := by
  refine ⟨?_, by decide⟩
  exact (C6_rename_case_only envOk dbC6w "cn=x" "CN=x"
    ⟨"cn=x", [⟨"b", 0, [1]⟩]⟩ dbC6w'
    ⟨fun d m => rfl, fun d m => rfl, fun d m b => rfl, fun d => rfl⟩
    (by decide) (by decide) (by decide) (by decide) (by decide)).2

/-! The binary search of the schema registry -/

theorem ldb_attr_cmp_cases (a b : String) :
    (ldb_attr_cmp a b = -1 ∧ chLtb (strUpper a).data (strUpper b).data = true) ∨
    (ldb_attr_cmp a b = 0 ∧ (strUpper a).data = (strUpper b).data) ∨
    (ldb_attr_cmp a b = 1 ∧ chLtb (strUpper a).data (strUpper b).data = false ∧
      (strUpper a).data ≠ (strUpper b).data) := by
  unfold ldb_attr_cmp
  by_cases h1 : chLtb (strUpper a).data (strUpper b).data = true
  · exact Or.inl ⟨by rw [if_pos h1], h1⟩
  · by_cases h2 : (strUpper a).data = (strUpper b).data
    · exact Or.inr (Or.inl ⟨by rw [if_neg h1, if_pos h2], h2⟩)
    · refine Or.inr (Or.inr ⟨by rw [if_neg h1, if_neg h2], ?_, h2⟩)
      cases hq : chLtb (strUpper a).data (strUpper b).data with
      | false => rfl
      | true => exact absurd hq h1

theorem by_name_loop_miss (attrs : List LdbSchemaAttribute) (name : String) :
    ∀ (n : Nat) (b e : Int), (e + 1 - b).toNat = n → 0 ≤ b →
      (∀ (j : Nat) (a : LdbSchemaAttribute), b ≤ (j : Int) → (j : Int) ≤ e →
        attrs[j]? = some a → ldb_attr_cmp name a.name ≠ 0) →
      by_name_loop attrs name b e = none := by
  intro n
  induction n using Nat.strong_induction_on with
  | _ n ih =>
    intro b e hn hb hmiss
    rw [by_name_loop]
    split
    · next h =>
      dsimp only
      have hi1 : b ≤ (b + e) / 2 := by omega
      have hi2 : (b + e) / 2 ≤ e := by omega
      have hil : (((b + e) / 2).toNat : Int) = (b + e) / 2 :=
        Int.toNat_of_nonneg (by omega)
      cases hA : attrs[((b + e) / 2).toNat]? with
      | none => rfl
      | some a =>
        dsimp only
        have hcmp : ldb_attr_cmp name a.name ≠ 0 :=
          hmiss ((b + e) / 2).toNat a (by omega) (by omega) hA
        rw [if_neg hcmp]
        by_cases hlt : ldb_attr_cmp name a.name < 0
        · rw [if_pos hlt]
          refine ih ((b + e) / 2 - 1 + 1 - b).toNat (by omega) b ((b + e) / 2 - 1)
            rfl hb ?_
          intro j aj h1 h2 ha
          exact hmiss j aj h1 (by omega) ha
        · rw [if_neg hlt]
          refine ih (e + 1 - ((b + e) / 2 + 1)).toNat (by omega) ((b + e) / 2 + 1) e
            rfl (by omega) ?_
          intro j aj h1 h2 ha
          exact hmiss j aj (by omega) h2 ha
    · rfl

theorem by_name_loop_find (attrs : List LdbSchemaAttribute) (name : String)
    (hsorted : ∀ (p q : Nat) (ap aq : LdbSchemaAttribute), p < q →
      attrs[p]? = some ap → attrs[q]? = some aq →
      ldb_attr_cmp ap.name aq.name < 0) :
    ∀ (n : Nat) (b e : Int), (e + 1 - b).toNat = n → 0 ≤ b →
      e < (attrs.length : Int) →
      ∀ (j : Nat) (a : LdbSchemaAttribute), b ≤ (j : Int) → (j : Int) ≤ e →
        attrs[j]? = some a → ldb_attr_cmp name a.name = 0 →
      ∃ (i : Nat) (ai : LdbSchemaAttribute), by_name_loop attrs name b e = some i ∧
        attrs[i]? = some ai ∧ ldb_attr_cmp name ai.name = 0 := by
  intro n
  induction n using Nat.strong_induction_on with
  | _ n ih =>
    intro b e hn hb he j a hj1 hj2 hja hcmpj
    have hbe : b ≤ e := by omega
    rw [by_name_loop]
    rw [dif_pos hbe]
    dsimp only
    have hi1 : b ≤ (b + e) / 2 := by omega
    have hi2 : (b + e) / 2 ≤ e := by omega
    have hil : (((b + e) / 2).toNat : Int) = (b + e) / 2 :=
      Int.toNat_of_nonneg (by omega)
    have hilen : ((b + e) / 2).toNat < attrs.length := by omega
    cases hA : attrs[((b + e) / 2).toNat]? with
    | none =>
      rw [List.getElem?_eq_getElem hilen] at hA
      exact Option.noConfusion hA
    | some a0 =>
      dsimp only
      rcases ldb_attr_cmp_cases name a0.name with ⟨hr, hltb⟩ | ⟨hr, heqb⟩ |
        ⟨hr, hltb, hneb⟩
      · -- name sorts before the probe: every match lies left of the probe
        rw [hr]
        rw [if_neg (by decide), if_pos (by decide)]
        have hjlt : (j : Int) ≤ (b + e) / 2 - 1 := by
          by_contra hc
          push_neg at hc
          have hge : (b + e) / 2 ≤ (j : Int) := by omega
          by_cases hje : j = ((b + e) / 2).toNat
          · subst hje
            rw [hja] at hA
            injection hA with hA
            subst hA
            rw [ldb_attr_cmp_eq_zero_iff] at hcmpj
            rw [hcmpj] at hltb
            rw [chLtb_irrefl] at hltb
            exact Bool.noConfusion hltb
          · have hlt2 : ((b + e) / 2).toNat < j := by omega
            have hso := hsorted ((b + e) / 2).toNat j a0 a hlt2 hA hja
            rw [ldb_attr_cmp_eq_zero_iff] at hcmpj
            rcases ldb_attr_cmp_cases a0.name a.name with ⟨_, hl2⟩ | ⟨hz, _⟩ |
              ⟨ho, _, _⟩
            · rw [← hcmpj] at hl2
              rw [chLtb_asymm _ _ hl2] at hltb
              exact Bool.noConfusion hltb
            · rw [hz] at hso
              exact absurd hso (by decide)
            · rw [ho] at hso
              exact absurd hso (by decide)
        exact ih ((b + e) / 2 - 1 + 1 - b).toNat (by omega) b ((b + e) / 2 - 1)
          rfl hb (by omega) j a hj1 hjlt hja hcmpj
      · -- zero comparison: the probe answers
        rw [hr]
        rw [if_pos rfl]
        exact ⟨((b + e) / 2).toNat, a0, rfl, hA, by
          rw [ldb_attr_cmp_eq_zero_iff]
          exact heqb⟩
      · -- name sorts after the probe: every match lies right of the probe
        rw [hr]
        rw [if_neg (by decide), if_neg (by decide)]
        have hjgt : (b + e) / 2 + 1 ≤ (j : Int) := by
          by_contra hc
          push_neg at hc
          by_cases hje : j = ((b + e) / 2).toNat
          · subst hje
            rw [hja] at hA
            injection hA with hA
            subst hA
            rw [ldb_attr_cmp_eq_zero_iff] at hcmpj
            exact hneb hcmpj
          · have hlt2 : j < ((b + e) / 2).toNat := by omega
            have hso := hsorted j ((b + e) / 2).toNat a a0 hlt2 hja hA
            rw [ldb_attr_cmp_eq_zero_iff] at hcmpj
            rcases ldb_attr_cmp_cases a.name a0.name with ⟨_, hl2⟩ | ⟨hz, _⟩ |
              ⟨ho, _, _⟩
            · rw [← hcmpj] at hl2
              rw [hl2] at hltb
              exact Bool.noConfusion hltb
            · rw [hz] at hso
              exact absurd hso (by decide)
            · rw [ho] at hso
              exact absurd hso (by decide)
        exact ih (e + 1 - ((b + e) / 2 + 1)).toNat (by omega) ((b + e) / 2 + 1) e
          rfl (by omega) he j a hjgt hj2 hja hcmpj

/-! Claims C9 and C10 -/

theorem ifBoolTrue {α : Sort u_1} (a b : α) : (if true = true then a else b) = a := rfl

theorem ifBoolFalse {α : Sort u_1} (a b : α) : (if false = true then a else b) = b := rfl

theorem pairwise_sorted_idx (attrs : List LdbSchemaAttribute)
    (hsorted : attrs.Pairwise (fun x y => ldb_attr_cmp x.name y.name < 0)) :
    ∀ (p q : Nat) (ap aq : LdbSchemaAttribute), p < q →
      attrs[p]? = some ap → attrs[q]? = some aq →
      ldb_attr_cmp ap.name aq.name < 0 := by
  rw [List.pairwise_iff_get] at hsorted
  intro p q ap aq hpq hp hq
  have hq' : q < attrs.length := by
    by_contra hc
    rw [List.getElem?_eq_none (by omega)] at hq
    exact Option.noConfusion hq
  have hp' : p < attrs.length := by omega
  have h := hsorted ⟨p, hp'⟩ ⟨q, hq'⟩ (Fin.mk_lt_mk.mpr hpq)
  rw [List.getElem?_eq_getElem hp'] at hp
  rw [List.getElem?_eq_getElem hq'] at hq
  injection hp with hp
  injection hq with hq
  rw [List.get_eq_getElem] at h
  rw [List.get_eq_getElem] at h
  rw [hp, hq] at h
  exact h

theorem by_name_idx_miss_wild (attrs : List LdbSchemaAttribute) (name : String)
    (a0 : LdbSchemaAttribute) (h0 : attrs[0]? = some a0) (hstar : a0.name = "*")
    (hmiss : ∀ a ∈ attrs, ldb_attr_cmp name a.name ≠ 0) :
    ldb_schema_attribute_by_name_idx attrs name = some 0 := by
  unfold ldb_schema_attribute_by_name_idx
  rw [h0]
  dsimp only
  rw [show (a0.name == "*") = true by rw [hstar]; rfl]
  simp only [ifBoolTrue, if_true]
  rw [by_name_loop_miss attrs name
    ((attrs.length : Int) - 1 + 1 - 1).toNat 1 ((attrs.length : Int) - 1)
    rfl (by omega)
    (fun j2 a2 h1 h2 ha2 => hmiss a2 (mem_of_getElem_some attrs j2 a2 ha2))]

theorem by_name_idx_miss_nowild (attrs : List LdbSchemaAttribute) (name : String)
    (hnw : ∀ a0, attrs[0]? = some a0 → a0.name ≠ "*")
    (hmiss : ∀ a ∈ attrs, ldb_attr_cmp name a.name ≠ 0) :
    ldb_schema_attribute_by_name_idx attrs name = none := by
  unfold ldb_schema_attribute_by_name_idx
  have hloop := by_name_loop_miss attrs name
    ((attrs.length : Int) - 1 + 1 - 0).toNat 0 ((attrs.length : Int) - 1)
    rfl (by omega)
    (fun j2 a2 h1 h2 ha2 => hmiss a2 (mem_of_getElem_some attrs j2 a2 ha2))
  cases h0 : attrs[0]? with
  | none =>
    dsimp only
    simp only [ifBoolFalse, if_false]
    rw [hloop]
  | some a0 =>
    dsimp only
    rw [show (a0.name == "*") = false by
      cases hq : (a0.name == "*") with
      | false => rfl
      | true => exact absurd (eq_of_beq hq) (hnw a0 h0)]
    simp only [ifBoolFalse, if_false]
    rw [hloop]

/-- C9.  `ldb_schema_attribute_by_name` (ldb_attributes.c:120) on a registry
sorted case-insensitively with a `"*"` wildcard first when present: when some
entry's name compares case-insensitively equal to the queried name, the lookup
returns an entry of the registry with such a name; on a miss it returns the
wildcard entry when present, and otherwise the built-in default, whose syntax
is the octet-string syntax with binary comparison. -/
theorem C9_schema_lookup (attrs : List LdbSchemaAttribute) (name : String)
    (hsorted : attrs.Pairwise (fun x y => ldb_attr_cmp x.name y.name < 0)) :
    ((∃ a ∈ attrs, ldb_attr_cmp name a.name = 0) →
      ldb_schema_attribute_by_name attrs name ∈ attrs ∧
      ldb_attr_cmp name (ldb_schema_attribute_by_name attrs name).name = 0)
    ∧ ((∀ a ∈ attrs, ldb_attr_cmp name a.name ≠ 0) →
      ∀ a0, attrs[0]? = some a0 → a0.name = "*" →
        ldb_schema_attribute_by_name attrs name = a0)
    ∧ ((∀ a ∈ attrs, ldb_attr_cmp name a.name ≠ 0) →
      (∀ a0, attrs[0]? = some a0 → a0.name ≠ "*") →
        ldb_schema_attribute_by_name attrs name = ldb_attribute_default)
    ∧ ldb_attribute_default.stx = ldb_stx_default
    ∧ ldb_stx_default.name = LDB_OID_OCTET_STRING
    ∧ ldb_stx_default.comparison_fn = LdbHandlerFn.comparison_binary := by
  have hs := pairwise_sorted_idx attrs hsorted
  refine ⟨?_, ?_, ?_, rfl, rfl, rfl⟩
  · rintro ⟨a, ha, hca⟩
    obtain ⟨j, hj⟩ := getElem_some_of_mem attrs a ha
    have hjlen : j < attrs.length := by
      by_contra hc
      rw [List.getElem?_eq_none (by omega)] at hj
      exact Option.noConfusion hj
    unfold ldb_schema_attribute_by_name ldb_schema_attribute_by_name_idx
    cases h0 : attrs[0]? with
    | none =>
      exfalso
      rw [List.getElem?_eq_none_iff] at h0
      omega
    | some a0 =>
      dsimp only
      by_cases hw : (a0.name == "*") = true
      · rw [hw]
        simp only [ifBoolTrue, if_true]
        by_cases hex : ∃ (j2 : Nat) (a2 : LdbSchemaAttribute),
            attrs[j2]? = some a2 ∧ 1 ≤ j2 ∧ ldb_attr_cmp name a2.name = 0
        · obtain ⟨j2, a2, hj2, hge, hc2⟩ := hex
          have hj2len : j2 < attrs.length := by
            by_contra hc
            rw [List.getElem?_eq_none (by omega)] at hj2
            exact Option.noConfusion hj2
          obtain ⟨i, ai, hloop, hai, hcm⟩ := by_name_loop_find attrs name hs
            ((attrs.length : Int) - 1 + 1 - 1).toNat 1 ((attrs.length : Int) - 1)
            rfl (by omega) (by omega) j2 a2 (by omega) (by omega) hj2 hc2
          rw [hloop]
          dsimp only
          rw [hai]
          exact ⟨mem_of_getElem_some attrs i ai hai, hcm⟩
        · push_neg at hex
          have hj0 : j = 0 := by
            by_contra hc
            exact hex j a hj (by omega) hca
          subst hj0
          have haa0 : a = a0 := by
            rw [hj] at h0
            injection h0 with h0
          rw [by_name_loop_miss attrs name
            ((attrs.length : Int) - 1 + 1 - 1).toNat 1 ((attrs.length : Int) - 1)
            rfl (by omega)
            (fun j2 a2 h1 h2 ha2 => hex j2 a2 ha2 (by omega))]
          dsimp only
          rw [h0]
          rw [← haa0]
          exact ⟨mem_of_getElem_some attrs 0 a hj, hca⟩
      · rw [Bool.not_eq_true] at hw
        rw [hw]
        simp only [ifBoolFalse, if_false]
        obtain ⟨i, ai, hloop, hai, hcm⟩ := by_name_loop_find attrs name hs
          ((attrs.length : Int) - 1 + 1 - 0).toNat 0 ((attrs.length : Int) - 1)
          rfl (by omega) (by omega) j a (by omega) (by omega) hj hca
        rw [hloop]
        dsimp only
        rw [hai]
        exact ⟨mem_of_getElem_some attrs i ai hai, hcm⟩
  · intro hmiss a0 h0 hstar
    unfold ldb_schema_attribute_by_name
    rw [by_name_idx_miss_wild attrs name a0 h0 hstar hmiss]
    dsimp only
    rw [h0]
    rfl
  · intro hmiss hnw
    unfold ldb_schema_attribute_by_name
    rw [by_name_idx_miss_nowild attrs name hnw hmiss]

/-- C10.  `ldb_schema_attribute_remove` (ldb_attributes.c:158) with a name
that has no case-insensitive match in the registry: when a non-fixed `"*"`
wildcard entry is first, the lookup resolves the miss to the wildcard entry and
the removal deletes the wildcard itself; without a wildcard the registry is
unchanged. -/
theorem C10_schema_remove_absent (attrs : List LdbSchemaAttribute) (name : String)
    (habsent : ∀ a ∈ attrs, ldb_attr_cmp name a.name ≠ 0) :
    (∀ a0, attrs[0]? = some a0 → a0.name = "*" →
      a0.flags &&& LDB_ATTR_FLAG_FIXED = 0 →
      ldb_schema_attribute_remove attrs name = attrs.eraseIdx 0)
    ∧ ((∀ a0, attrs[0]? = some a0 → a0.name ≠ "*") →
      ldb_schema_attribute_remove attrs name = attrs) := by
  constructor
  · intro a0 h0 hstar hnf
    unfold ldb_schema_attribute_remove
    rw [by_name_idx_miss_wild attrs name a0 h0 hstar habsent]
    dsimp only
    rw [h0]
    dsimp only
    rw [if_neg (by rw [hnf]; exact fun hq => hq rfl)]
  · intro hnw
    unfold ldb_schema_attribute_remove
    rw [by_name_idx_miss_nowild attrs name hnw habsent]

def stx9 : LdbSchemaStx :=
  ⟨LDB_OID_OCTET_STRING, .handler_copy, .handler_copy, .handler_copy, .comparison_binary⟩

def attrs9 : List LdbSchemaAttribute :=
  [⟨"*", 0, stx9⟩, ⟨"cn", 0, stx9⟩, ⟨"ou", 0, stx9⟩]

def attrs10 : List LdbSchemaAttribute := [⟨"cn", 0, stx9⟩, ⟨"ou", 0, stx9⟩]

/-- Witness for C9 at a concrete registry: looking up `CN` finds the `cn` entry
case-insensitively, and looking up the absent `mail` answers the wildcard. -/
theorem C9_witness :
    (ldb_schema_attribute_by_name attrs9 "CN" ∈ attrs9 ∧
     ldb_attr_cmp "CN" (ldb_schema_attribute_by_name attrs9 "CN").name = 0) ∧
    ldb_schema_attribute_by_name attrs9 "mail" = ⟨"*", 0, stx9⟩ := by
  have h1 := C9_schema_lookup attrs9 "CN" (by decide)
  have h2 := C9_schema_lookup attrs9 "mail" (by decide)
  refine ⟨h1.1 ⟨⟨"cn", 0, stx9⟩, by decide, by decide⟩, ?_⟩
  exact h2.2.1 (by decide) ⟨"*", 0, stx9⟩ (by decide) (by decide)

/-- Witness for C10 at a concrete registry: removing the absent name `mail`
removes the non-fixed wildcard entry when one is present, and is a no-op on a
registry without a wildcard. -/
theorem C10_witness :
    ldb_schema_attribute_remove attrs9 "mail" = attrs10 ∧
    ldb_schema_attribute_remove attrs10 "mail" = attrs10 := by
  have h1 := C10_schema_remove_absent attrs9 "mail" (by decide)
  have h2 := C10_schema_remove_absent attrs10 "mail" (by decide)
  constructor
  · have he := h1.1 ⟨"*", 0, stx9⟩ (by decide) (by decide) (by decide)
    rw [he]
    rfl
  · refine h2.2 (fun a0 h0 => ?_)
    have h0' : (⟨"cn", 0, stx9⟩ : LdbSchemaAttribute) = a0 := by
      injection h0
    rw [← h0']
    decide
